import Mathlib

/-!
Verification development for the CCBP path-mapping engine and material
resolver (`ccbp/core/path_mapping_engine/{engine,rules,config}.py`,
`ccbp/core/capcut_handler.py`, `ccbp/core/file_system_handler.py`).

The Python data being transformed is parsed JSON: dictionaries, lists,
strings, numbers, booleans and None.  We embed it as the inductive type `J`
below.  Numbers are modelled as integers: the claims under study concern
path/text rewriting and resolver fallback logic, none of which inspects
numeric payloads, so IEEE floating point literals are left outside the
model (a nested-JSON string containing a float literal simply fails to
parse in the model and is then treated as plain text, which keeps every
theorem about unchanged-value behaviour honest).

Python's `re` module and `json` module are external collaborators of the
code under verification.  `json.dumps(..., ensure_ascii=False,
separators=(',', ':'))` and `json.loads` are embedded concretely below
(serializer `ser`/`dumps`, parser `parseVal`/`loads`) together with a
proved round-trip theorem.  Compiled regular expressions are embedded by
their matching semantics: a regex-substitution rule carries the semantic
substitution function of its compiled pattern, and a placeholder rule
carries the decomposition of an input string into literal runs and matches
(the interface `re.Pattern.sub` exposes to its replacement callback).  The
one concrete regex the claims depend on — the default `extra_info` pattern
`r'^([a-zA-Z0-9_.-]+)\\.?'` of `MaterialMapLookupRule` — is embedded
concretely as `defaultExtraInfoMatch`.
-/

/-- A parsed JSON document / arbitrary Python value travelling through the
engine: object (insertion-ordered key/value list), array, string, integer
number, boolean, or null. -/
inductive J where
  | str (s : String)
  | num (n : Int)
  | bool (b : Bool)
  | null
  | arr (elems : List J)
  | obj (fields : List (String × J))

/-- First-match association-list lookup, the embedding of a Python `dict`
read (`d[k]` / `k in d`); the registration helpers below keep keys unique. -/
def alookup : List (String × J) → String → Option J
  | [], _ => none
  | (k, v) :: rest, key => if k = key then some v else alookup rest key

/-- Association-list lookup for string-valued maps (CSV rows, the material
map produced by the resolver). -/
def slookup : List (String × String) → String → Option String
  | [], _ => none
  | (k, v) :: rest, key => if k = key then some v else slookup rest key

/-- Insert-or-replace for string-valued maps, the embedding of a Python
`dict` write `d[k] = v` (an existing key keeps its position, a new key is
appended, matching insertion-order semantics). -/
def sinsert : List (String × String) → String → String → List (String × String)
  | [], key, val => [(key, val)]
  | (k, v) :: rest, key, val =>
    if k = key then (k, val) :: rest else (k, v) :: sinsert rest key val

/-- Python truthiness for a `J` value (`bool(x)`): empty containers, the
empty string, zero, `False` and `None` are falsy. -/
def pyTruthy : J → Bool
  | .str s => s ≠ ""
  | .num n => n ≠ 0
  | .bool b => b
  | .null => false
  | .arr es => !es.isEmpty
  | .obj fs => !fs.isEmpty

/-! ## Character-list string utilities

Core `String` operations (`replace`, `trim`, `splitOn`, …) do not reduce
inside the kernel, so the operations the embedded code needs are defined
over `List Char` here.  They model the corresponding Python `str`
operations on the inputs the code exercises. -/

/-- JSON/Python whitespace used by the parser and by `str.strip` in the
model: space, tab, newline, carriage return. -/
def isWsChar (c : Char) : Bool :=
  c = ' ' || c = '\t' || c = '\n' || c = '\r'

/-- Strip leading whitespace. -/
def skipWs (cs : List Char) : List Char := cs.dropWhile isWsChar

/-- Model of Python `str.strip()`: drop leading and trailing whitespace. -/
def trimL (cs : List Char) : List Char :=
  ((cs.dropWhile isWsChar).reverse.dropWhile isWsChar).reverse

/-- Model of Python `str.strip()` at `String` level. -/
def strTrim (s : String) : String := (trimL s.data).asString

/-- Does `pre` occur at the start of `cs`?  (Model of `str.startswith`.) -/
def beginsWith : List Char → List Char → Bool
  | [], _ => true
  | _ :: _, [] => false
  | p :: ps, c :: cs => p = c && beginsWith ps cs

/-- Does `pat` occur anywhere inside `cs`?  (Model of Python `in` on
strings; the empty pattern is contained in everything, as in Python.) -/
def containsSub : List Char → List Char → Bool
  | pat, [] => pat.isEmpty
  | pat, c :: cs => beginsWith pat (c :: cs) || containsSub pat cs

/-- Model of Python substring test `pat in s` at `String` level. -/
def strContains (s pat : String) : Bool := containsSub pat.data s.data

/-- Model of `str.startswith` at `String` level. -/
def strBeginsWith (s pre : String) : Bool := beginsWith pre.data s.data

/-- Model of Python `str.lower()` (ASCII letters; the identifiers the code
lowercases are ASCII column names). -/
def strLower (s : String) : String := (s.data.map Char.toLower).asString

/-- Characters before the first occurrence of `sep`: the model of Python
`s.split(sep)[0]` (also of `s.split(sep, 1)[0]`). -/
def splitHead (sep : Char) (s : String) : String :=
  (s.data.takeWhile (fun c => c ≠ sep)).asString

/-- Split a character list on a separator character (used to model
`pathlib` component handling for POSIX-style paths). -/
def splitChar (sep : Char) : List Char → List (List Char)
  | [] => [[]]
  | c :: cs =>
    if c = sep then [] :: splitChar sep cs
    else
      match splitChar sep cs with
      | [] => [[c]]
      | seg :: segs => (c :: seg) :: segs

/-- Non-empty components of a POSIX-style path string. -/
def pathParts (s : String) : List (List Char) :=
  (splitChar '/' s.data).filter (fun seg => !seg.isEmpty)

/-- Model of `pathlib.Path(s).name`: the last non-empty path component
("" when there is none). -/
def pathName (s : String) : String :=
  ((pathParts s).getLastD []).asString

/-- Model of `pathlib.Path(s).parent.name`: the next-to-last non-empty
component ("" when there is none). -/
def pathParentName (s : String) : String :=
  ((pathParts s).dropLast.getLastD []).asString

/-- Index (from the start) of the last occurrence of `c`, or `none`. -/
def lastIdxOf (c : Char) (cs : List Char) : Option Nat :=
  match cs with
  | [] => none
  | d :: rest =>
    match lastIdxOf c rest with
    | some i => some (i + 1)
    | none => if d = c then some 0 else none

/-- Model of `pathlib.Path(s).stem`: the final component without its last
dot-suffix; a dot in first or last position does not start a suffix
(`PurePath.stem`: `name[:i]` when `0 < i < len(name) - 1`). -/
def pyStem (s : String) : String :=
  let n := (pathName s).data
  match lastIdxOf '.' n with
  | some i => if 0 < i ∧ i < n.length - 1 then (n.take i).asString else n.asString
  | none => n.asString

/-- Model of `pathlib` `/` joining of a directory and a relative name. -/
def pathJoin (a b : String) : String := a ++ "/" ++ b

/-- Model of `Path(s).resolve()`.  Resolution against the working directory
and symlinks is outside the model: the code under verification only feeds
resolved paths to existence probes, which are themselves abstract, so
resolution is the identity here. -/
def pathResolve (s : String) : String := s

/-! ## Serializer: `json.dumps(..., ensure_ascii=False, separators=(',', ':'))` -/

/-- Hex digit character (lowercase, as in Python's `'\\u%04x'`). -/
def hexDigitChar (n : Nat) : Char :=
  if n < 10 then Char.ofNat (48 + n) else Char.ofNat (87 + n)

/-- Escape of one character inside a JSON string, following
`json.encoder.py_encode_basestring` (used for `ensure_ascii=False`):
backslash, double quote and the five short control escapes get two-character
escapes, the remaining control characters get `\u00XX`, everything else is
emitted verbatim. -/
def escapeChar (c : Char) : List Char :=
  if c = '"' then ['\\', '"']
  else if c = '\\' then ['\\', '\\']
  else if c = Char.ofNat 8 then ['\\', 'b']
  else if c = Char.ofNat 9 then ['\\', 't']
  else if c = Char.ofNat 10 then ['\\', 'n']
  else if c = Char.ofNat 12 then ['\\', 'f']
  else if c = Char.ofNat 13 then ['\\', 'r']
  else if c.toNat < 32 then
    ['\\', 'u', '0', '0', hexDigitChar (c.toNat / 16), hexDigitChar (c.toNat % 16)]
  else [c]

/-- Escape a whole character list. -/
def escapeL : List Char → List Char
  | [] => []
  | c :: cs => escapeChar c ++ escapeL cs

/-- A JSON string literal: quote, escaped body, quote. -/
def quoteL (cs : List Char) : List Char := '"' :: escapeL cs ++ ['"']

/-- Decimal digit character. -/
def digitChar (n : Nat) : Char := Char.ofNat (48 + n)

/-- Fuelled decimal printer for naturals (fuel-structural so that it
reduces in the kernel; `natChars` supplies sufficient fuel). -/
def natCharsF : Nat → Nat → List Char
  | 0, _ => []
  | f + 1, n =>
    if n < 10 then [digitChar n]
    else natCharsF f (n / 10) ++ [digitChar (n % 10)]

/-- Decimal representation of a natural number. -/
def natChars (n : Nat) : List Char := natCharsF (n + 1) n

/-- Decimal representation of an integer (Python `repr(int)`). -/
def intChars (i : Int) : List Char :=
  if i < 0 then '-' :: natChars i.natAbs else natChars i.toNat

mutual

/-- Compact JSON serialization of a value, the embedding of
`json.dumps(v, ensure_ascii=False, separators=(',', ':'))`. -/
def ser : J → List Char
  | .str s => quoteL s.data
  | .num i => intChars i
  | .bool true => ['t', 'r', 'u', 'e']
  | .bool false => ['f', 'a', 'l', 's', 'e']
  | .null => ['n', 'u', 'l', 'l']
  | .arr es => '[' :: serEls es ++ [']']
  | .obj fs => '{' :: serFlds fs ++ ['}']

/-- Comma-separated serialization of array elements. -/
def serEls : List J → List Char
  | [] => []
  | [e] => ser e
  | e :: rest => ser e ++ ',' :: serEls rest

/-- Comma-separated serialization of object members. -/
def serFlds : List (String × J) → List Char
  | [] => []
  | [(k, v)] => quoteL k.data ++ ':' :: ser v
  | (k, v) :: rest => quoteL k.data ++ ':' :: ser v ++ ',' :: serFlds rest

end

/-- String-level compact serialization. -/
def dumps (v : J) : String := (ser v).asString

/-! ## Parser: `json.loads` -/

/-- Numeric value of a hex digit character, if it is one. -/
def hexVal (c : Char) : Option Nat :=
  if '0' ≤ c ∧ c ≤ '9' then some (c.toNat - 48)
  else if 'a' ≤ c ∧ c ≤ 'f' then some (c.toNat - 87)
  else if 'A' ≤ c ∧ c ≤ 'F' then some (c.toNat - 55)
  else none

/-- Decode a `\\uXXXX` escape after the `\\u`: four hex digits giving a
code point outside the surrogate range.  (Python combines surrogate pairs
— an encoding corner no claim exercises, so surrogate escapes are rejected
here.) -/
def decodeU : List Char → Option (Char × List Char)
  | h1 :: h2 :: h3 :: h4 :: cs3 =>
    match hexVal h1, hexVal h2, hexVal h3, hexVal h4 with
    | some a, some b, some c, some d =>
      if 0xd800 ≤ ((a * 16 + b) * 16 + c) * 16 + d ∧
          ((a * 16 + b) * 16 + c) * 16 + d ≤ 0xdfff then none
      else some (Char.ofNat (((a * 16 + b) * 16 + c) * 16 + d), cs3)
    | _, _, _, _ => none
  | _ => none

/-- Decode one escape sequence after a backslash, following `json.loads`:
the eight simple escapes or a `\\uXXXX` code point. -/
def decodeEsc : List Char → Option (Char × List Char)
  | [] => none
  | e :: cs2 =>
    if e = '"' then some ('"', cs2)
    else if e = '\\' then some ('\\', cs2)
    else if e = '/' then some ('/', cs2)
    else if e = 'b' then some (Char.ofNat 8, cs2)
    else if e = 'f' then some (Char.ofNat 12, cs2)
    else if e = 'n' then some (Char.ofNat 10, cs2)
    else if e = 'r' then some (Char.ofNat 13, cs2)
    else if e = 't' then some (Char.ofNat 9, cs2)
    else if e = 'u' then decodeU cs2
    else none

/-- Fuelled scan of a JSON string body after the opening quote, returning
the decoded characters and the input remaining after the closing quote.
Raw control characters are accepted verbatim (Python's strict mode rejects
them; the difference is immaterial to the round-trip property, since the
serializer never emits them raw).  Each step consumes at least one input
character, so `length input + 1` fuel always suffices. -/
def parseStrBodyF : Nat → List Char → Option (List Char × List Char)
  | 0, _ => none
  | _ + 1, [] => none
  | f + 1, c :: cs =>
    if c = '"' then some ([], cs)
    else if c = '\\' then
      match decodeEsc cs with
      | some (d, cs2) => (fun p => (d :: p.1, p.2)) <$> parseStrBodyF f cs2
      | none => none
    else (fun p => (c :: p.1, p.2)) <$> parseStrBodyF f cs

/-- Parse the body of a JSON string after the opening quote. -/
def parseStrBody (cs : List Char) : Option (List Char × List Char) :=
  parseStrBodyF (cs.length + 1) cs

/-- Decimal value of a digit list. -/
def digitsVal (ds : List Char) : Nat :=
  ds.foldl (fun a c => 10 * a + (c.toNat - 48)) 0

/-- Does the input continue with a character that would make the number a
float literal? -/
def floatFollows : List Char → Bool
  | '.' :: _ => true
  | 'e' :: _ => true
  | 'E' :: _ => true
  | _ => false

/-- Parse an unsigned integer literal: a non-empty digit run not followed
by a fraction or exponent marker. -/
def parseNatPart (cs : List Char) : Option (Nat × List Char) :=
  let ds := cs.takeWhile Char.isDigit
  let rest2 := cs.dropWhile Char.isDigit
  if ds.isEmpty then none
  else if floatFollows rest2 then none
  else some (digitsVal ds, rest2)

/-- Parse a JSON number at the head of the input.  Only integer literals
are accepted (see the header comment); a fraction or exponent makes the
parse fail, so such nested content is handled as plain text. -/
def parseNum (cs : List Char) : Option (Int × List Char) :=
  match cs with
  | [] => none
  | c :: rest =>
    if c = '-' then (parseNatPart rest).map (fun p => (-(p.1 : Int), p.2))
    else (parseNatPart cs).map (fun p => ((p.1 : Int), p.2))

mutual

/-- Fuelled recursive-descent parse of one JSON value (leading whitespace
allowed), returning the value and the remaining input.  One unit of fuel
is consumed per recursion step, each of which follows at least one
consumed input character, so `length input + 1` fuel always suffices. -/
def parseVal : Nat → List Char → Option (J × List Char)
  | 0, _ => none
  | f + 1, cs0 =>
    match skipWs cs0 with
    | '{' :: cs =>
      match skipWs cs with
      | '}' :: cs2 => some (.obj [], cs2)
      | cs1 => (fun p => (J.obj p.1, p.2)) <$> parseFlds f cs1
    | '[' :: cs =>
      match skipWs cs with
      | ']' :: cs2 => some (.arr [], cs2)
      | cs1 => (fun p => (J.arr p.1, p.2)) <$> parseEls f cs1
    | '"' :: cs => (fun p => (J.str p.1.asString, p.2)) <$> parseStrBody cs
    | 't' :: 'r' :: 'u' :: 'e' :: cs => some (.bool true, cs)
    | 'f' :: 'a' :: 'l' :: 's' :: 'e' :: cs => some (.bool false, cs)
    | 'n' :: 'u' :: 'l' :: 'l' :: cs => some (.null, cs)
    | cs => (fun p => (J.num p.1, p.2)) <$> parseNum cs

/-- Parse a non-empty member list of a JSON object, consuming through the
closing `}`. -/
def parseFlds : Nat → List Char → Option (List (String × J) × List Char)
  | 0, _ => none
  | f + 1, cs0 =>
    match skipWs cs0 with
    | '"' :: cs =>
      match parseStrBody cs with
      | none => none
      | some (kcs, cs1) =>
        match skipWs cs1 with
        | ':' :: cs2 =>
          match parseVal f cs2 with
          | none => none
          | some (v, cs3) =>
            match skipWs cs3 with
            | ',' :: cs4 =>
              (fun p => ((kcs.asString, v) :: p.1, p.2)) <$> parseFlds f cs4
            | '}' :: cs4 => some ([(kcs.asString, v)], cs4)
            | _ => none
        | _ => none
    | _ => none

/-- Parse a non-empty element list of a JSON array, consuming through the
closing `]`. -/
def parseEls : Nat → List Char → Option (List J × List Char)
  | 0, _ => none
  | f + 1, cs0 =>
    match parseVal f cs0 with
    | none => none
    | some (v, cs1) =>
      match skipWs cs1 with
      | ',' :: cs2 => (fun p => (v :: p.1, p.2)) <$> parseEls f cs2
      | ']' :: cs2 => some ([v], cs2)
      | _ => none

end

/-- String-level parse of a complete JSON document, the embedding of
`json.loads`: one value with optional surrounding whitespace and no
trailing data. -/
def loads (s : String) : Option J :=
  match parseVal (s.data.length + 1) s.data with
  | some (v, rest) => if skipWs rest = [] then some v else none
  | none => none

/-! ## Rule variants (`path_mapping_engine/rules.py`) -/

/-- One segment of the decomposition `re.Pattern.sub` performs on an input
string: a literal (non-matching) run, or a match carrying the whole matched
text (`group(0)`) and the first capture group (`group(1)`). -/
inductive Seg where
  | lit (t : String)
  | found (g0 : String) (g1 : String)

/-- One entry of `MaterialMapLookupRule.lookup_methods`.  A configured
`extra_info` pattern is embedded by the semantic function of
`re.match(pattern, ·)` returning `group(1)`; `none` selects the default
pattern (`defaultExtraInfoMatch`).  `unknown` stands for an unrecognized
method name or a malformed method entry, both of which the loop skips. -/
inductive LookupMethod where
  | extraInfo (pat : Option (String → Option String))
  | pathStem
  | fieldValue (field : Option String)
  | typeAndStem
  | unknown

/-- Variant-specific payload of a rule.  A regex-substitution rule carries
the semantic substitution function of its compiled pattern and replacement
template (`compiled_pattern.sub(replacer, ·)`); a placeholder rule carries
the match decomposition of its compiled pattern together with its
configured source name. -/
inductive RuleImpl where
  | materialMapLookup (methods : List LookupMethod)
  | regex (sub : String → String)
  | regexPlaceholder (decomp : String → List Seg) (source : String)

/-- A constructed rule: `id`, `target_keys`, `priority`, `enabled` and the
variant payload. -/
structure Rule where
  id : String
  targetKeys : List String
  priority : Int
  enabled : Bool
  impl : RuleImpl

/-- The traversal context dictionary built by `process_json` and threaded
through `_process_item`: `material_map`, `csv_row_data` and `item` (the
object currently being processed). -/
structure Ctx where
  materialMap : List (String × J)
  csvRow : List (String × J)
  item : List (String × J)

/-- `Rule.applies_to_key`: false for an empty (or invalid, hence emptied)
`target_keys` list, otherwise a `"*"` wildcard or literal key membership. -/
def Rule.appliesTo (r : Rule) (k : String) : Bool :=
  if r.targetKeys.isEmpty then false
  else r.targetKeys.contains "*" || r.targetKeys.contains k

/-- `context.get(self.source)` for the three keys `process_json` places in
the context. -/
def ctxSource (ctx : Ctx) : String → Option (List (String × J))
  | "material_map" => some ctx.materialMap
  | "csv_row_data" => some ctx.csvRow
  | "item" => some ctx.item
  | _ => none

/-- A character of the class `[a-zA-Z0-9_.-]` used by the default
`extra_info` pattern. -/
def isClassChar (c : Char) : Bool :=
  c.isAlpha || c.isDigit || c = '_' || c = '.' || c = '-'

/-- Matching semantics of `re.match` with the default `extra_info` pattern
`r'^([a-zA-Z0-9_.-]+)\\.?'` of `MaterialMapLookupRule.apply`.  In that raw
string the `\\` is an escaped backslash, so after the captured class run
the pattern requires a literal backslash character, followed by `.?` (one
optional arbitrary character).  The backslash is not in the class, so the
greedy capture is the maximal leading class run with no backtracking: the
match succeeds exactly when the maximal run is non-empty and the character
immediately after it is a backslash, and `group(1)` is that run. -/
def defaultExtraInfoMatch (s : String) : Option String :=
  let run := s.data.takeWhile isClassChar
  if run.isEmpty then none
  else
    match s.data.dropWhile isClassChar with
    | '\\' :: _ => some run.asString
    | _ => none

/-- Candidate-key derivation for one lookup method
(`MaterialMapLookupRule.apply`, per-method bodies). -/
def deriveKey (m : LookupMethod) (ctx : Ctx) (value : String) : Option String :=
  match m with
  | .extraInfo pat =>
    match alookup ctx.item "extra_info" with
    | some (.str ei) =>
      if ei = "" then none
      else
        match pat with
        | some f => f ei
        | none => defaultExtraInfoMatch ei
    | _ => none
  | .pathStem => some (pyStem value)
  | .fieldValue field =>
    match field with
    | some f =>
      if f = "" then none
      else
        match alookup ctx.item f with
        | some (.str kv) => if kv = "" then none else some kv
        | _ => none
    | none => none
  | .typeAndStem =>
    let itemType := alookup ctx.item "type"
    let stem := pyStem value
    if (match itemType with | some t => pyTruthy t | none => false) && stem ≠ "" then
      some stem
    else none

  | .unknown => none

/-- The method loop of `MaterialMapLookupRule.apply`: the first method
whose derived key hits the material map decides the result — the mapped
value when it is a string, the original value when it is not (the loop
returns immediately in both cases); a miss or underivable key moves on to
the next method; with no hit anywhere the original value is returned. -/
def lookupLoop : List LookupMethod → Ctx → String → J
  | [], _, s => .str s
  | m :: ms, ctx, s =>
    match deriveKey m ctx s with
    | some k =>
      match alookup ctx.materialMap k with
      | some (.str mv) => .str mv
      | some _ => .str s
      | none => lookupLoop ms ctx s
    | none => lookupLoop ms ctx s

/-- `MaterialMapLookupRule.apply`: non-string or empty values pass through,
an empty material map short-circuits, otherwise the method loop runs. -/
def lookupRuleApply (methods : List LookupMethod) (ctx : Ctx) (value : J) : J :=
  match value with
  | .str s =>
    if s = "" then .str s
    else if ctx.materialMap.isEmpty then .str s
    else lookupLoop methods ctx s
  | v => v

/-- `RegexRule.apply`: non-string values pass through, strings get the
compiled pattern's global substitution. -/
def regexRuleApply (sub : String → String) (_ctx : Ctx) (value : J) : J :=
  match value with
  | .str s => .str (sub s)
  | v => v

/-- Replacement of one decomposition produced by the placeholder pattern,
mirroring `replace_match`: the first capture group is stripped of
surrounding whitespace; a hit in the source map substitutes the string
form of the mapped value, a miss keeps the original matched text. -/
def segsJoin (data : List (String × J)) (pyRepr : J → String) (segs : List Seg) : String :=
  String.join (segs.map fun sg =>
    match sg with
    | .lit t => t
    | .found g0 g1 =>
      match alookup data (strTrim g1) with
      | some jv => pyRepr jv
      | none => g0)

/-- Python `str(...)` of a value found in a placeholder source map.
Containers are rendered with the compact JSON form here; Python would use
`repr`, but no claim (and no engine configuration in the repository) puts
containers in a placeholder source. -/
def pyToString : J → String
  | .str s => s
  | .num n => (intChars n).asString
  | .bool true => "True"
  | .bool false => "False"
  | .null => "None"
  | .arr es => dumps (.arr es)
  | .obj fs => dumps (.obj fs)

/-- `RegexPlaceholderRule.apply`: non-string values pass through; a source
name absent from the context leaves the value unchanged; otherwise every
match is replaced per `segsJoin`. -/
def placeholderRuleApply (decomp : String → List Seg) (source : String)
    (ctx : Ctx) (value : J) : J :=
  match value with
  | .str s =>
    match ctxSource ctx source with
    | some data => .str (segsJoin data pyToString (decomp s))
    | none => .str s
  | v => v

/-- Dispatch of `Rule.apply` over the three variants. -/
def Rule.apply (r : Rule) (ctx : Ctx) (value : J) : J :=
  match r.impl with
  | .materialMapLookup methods => lookupRuleApply methods ctx value
  | .regex sub => regexRuleApply sub ctx value
  | .regexPlaceholder decomp source => placeholderRuleApply decomp source ctx value

/-- String-level restriction of `Rule.apply` used by the engine, which only
feeds string field values to rules; `rule_apply_str` below proves the two
agree on strings. -/
def Rule.applyS (r : Rule) (ctx : Ctx) (s : String) : String :=
  match r.apply ctx (.str s) with
  | .str t => t
  | _ => s

/-! ## Engine (`path_mapping_engine/engine.py`, `config.py`) -/

/-- Post-initialization state of `PathMappingEngine`: the two normalized
rule lists plus the ignore substrings and nested-JSON content keys from
`RuleConfig`. -/
structure PMEngine where
  pathRules : List Rule
  textRules : List Rule
  systemPathsToIgnore : List String
  jsonContentKeys : List String

/-- The no-configuration engine (`RuleConfig(None)`): no rules, no ignore
substrings, default content keys `["content"]`. -/
def emptyEngine : PMEngine :=
  { pathRules := [], textRules := [], systemPathsToIgnore := [],
    jsonContentKeys := ["content"] }

/-- Stable insertion of a rule into a priority-sorted list (a rule is
placed before the first strictly-later or equal-priority rule it does not
follow in the original order). -/
def insertRule (x : Rule) : List Rule → List Rule
  | [] => [x]
  | y :: ys => if x.priority ≤ y.priority then x :: y :: ys else y :: insertRule x ys

/-- Stable sort by ascending priority, the model of Python's stable
`sorted(rules, key=lambda x: x.get('priority', 999))` in
`RuleConfig._extract_and_sort_rules`. -/
def sortRules : List Rule → List Rule
  | [] => []
  | x :: xs => insertRule x (sortRules xs)

/-- Normalization a rule list undergoes before reaching the engine: drop
disabled rules, then stable-sort ascending by priority
(`RuleConfig._extract_and_sort_rules`; `create_rule` additionally drops
rules whose construction failed, which the model treats as never having
been in the list). -/
def normalizeRules (rs : List Rule) : List Rule :=
  sortRules (rs.filter (·.enabled))

/-- `PathMappingEngine._is_system_path`: does the value contain any of the
configured ignore substrings? -/
def isSystemPath (cfg : PMEngine) (s : String) : Bool :=
  cfg.systemPathsToIgnore.any (fun p => strContains s p)

/-- The path-rule loop of `_process_path_value`: rules are tried in list
order; the first applicable rule whose application changes the value ends
the loop with the changed value (`break`), applicable rules that leave the
value unchanged are skipped over, and rules whose `applies_to_key` is
false are ignored.  (A rule `apply` that raised would also break the loop
in Python; rule application is total in the model, matching the variant
contract that `apply` never propagates errors.) -/
def pathRuleLoop : List Rule → Ctx → String → String → String
  | [], _, _, v => v
  | r :: rs, ctx, k, v =>
    if r.appliesTo k then
      let nv := r.applyS ctx v
      if nv ≠ v then nv else pathRuleLoop rs ctx k v
    else pathRuleLoop rs ctx k v

/-- `PathMappingEngine._process_path_value`: values containing a configured
system-path substring are returned untouched; otherwise the first-change
path-rule loop runs. -/
def processPathValue (cfg : PMEngine) (ctx : Ctx) (k : String) (v : String) : String :=
  if isSystemPath cfg v then v else pathRuleLoop cfg.pathRules ctx k v

/-- The text-rule fold of `_process_text_value`: every applicable text rule
is applied in list order to the previous rule's output, with no
short-circuit. -/
def applyTextRules (cfg : PMEngine) (ctx : Ctx) (k : String) (v : String) : String :=
  cfg.textRules.foldl (fun cur r => if r.appliesTo k then r.applyS ctx cur else cur) v

/-- Does the trimmed value start with `{` or `[`?
(`value.strip().startswith(("{", "["))`). -/
def bracketStart (s : String) : Bool :=
  match trimL s.data with
  | '{' :: _ => true
  | '[' :: _ => true
  | _ => false

/-- `PathMappingEngine._process_item`, fuelled.  One unit of fuel is spent
per recursion step; at zero fuel the item is returned unchanged.  Python's
recursion is unbounded (and can in fact fail to terminate on adversarial
rule configurations whose material map re-introduces nested JSON), so the
claims are stated at sufficient fuel.  For each object field in order: a
string value is routed through the path rules, then — when the key is a
configured content key and the (possibly path-replaced) value starts with
a bracket after stripping — parsed as nested JSON, recursively processed
with a copy of the context, and re-serialized compactly, a parse failure
leaving the value as plain text; the text rules then fold over the result.
Object and array values recurse with `item` set to the enclosing object;
other values pass through.  Array elements recurse element-wise with an
unchanged context.

`procField` is the per-field body of the loop over an object's members;
`recur` is the engine's recursive call at the remaining fuel and `ctx2` the
context whose `item` is the enclosing object. -/
def procField (cfg : PMEngine) (recur : Ctx → J → J) (ctx2 : Ctx) :
    (String × J) → (String × J)
  | (k, .str s) =>
    let pv := processPathValue cfg ctx2 k s
    let tv :=
      if cfg.jsonContentKeys.contains k && bracketStart pv then
        match loads pv with
        | some nested => dumps (recur ctx2 nested)
        | none => pv
      else pv
    (k, .str (applyTextRules cfg ctx2 k tv))
  | (k, .obj fs2) => (k, recur ctx2 (.obj fs2))
  | (k, .arr es2) => (k, recur ctx2 (.arr es2))
  | (k, v) => (k, v)

def processItem (cfg : PMEngine) : Nat → Ctx → J → J
  | 0, _, item => item
  | f + 1, ctx, item =>
    match item with
    | .obj fields =>
      .obj (fields.map (procField cfg (processItem cfg f) { ctx with item := fields }))
    | .arr es => .arr (es.map (processItem cfg f ctx))
    | x => x

/-- `PathMappingEngine.process_json`: non-container input is returned as
is; otherwise the walk starts with a context holding the material map, the
CSV row, and an empty current item. -/
def processJson (cfg : PMEngine) (fuel : Nat) (jsonData : J)
    (materialMap : List (String × J)) (csvRow : List (String × J)) : J :=
  match jsonData with
  | .obj _ => processItem cfg fuel ⟨materialMap, csvRow, []⟩ jsonData
  | .arr _ => processItem cfg fuel ⟨materialMap, csvRow, []⟩ jsonData
  | x => x

/-! ## Material resolver (`capcut_handler.py`, `file_system_handler.py`) -/

/-- Abstract filesystem seen by the resolver's existence probes
(`os.path.isfile` / `Path.is_dir`). -/
structure FS where
  isFile : String → Bool
  isDir : String → Bool

/-- Exceptions `_build_material_map` can actually raise (the code paths the
claims are about): calling `.is_dir()` on `None` when the template base
path is missing, and reading the local `change_path` before any loop
iteration assigned it. -/
inductive PyErr where
  | attrNoneIsDir
  | unboundChangePath
  deriving DecidableEq

/-- `MATERIAL_TYPE_MAP` of `capcut_handler.py` in insertion order. -/
def materialTypeMap : List (String × String) :=
  [("img", "image"), ("photo", "photo"), ("video", "video"), ("bgm", "audio"),
   ("se", "audio"), ("voice", "audio"), ("music", "music")]

/-- `FileSystemHandler.MATERIAL_SUBFOLDERS`. -/
def materialSubfolders : List String :=
  ["video", "audio", "image", "text", "effect", "sticker", "filter",
   "transition", "font", "music", "photo", "img", "bgm", "se", "voice"]

/-- `FileSystemHandler.TEMPLATE_TYPE_DIRS`: alias directory names per
logical type. -/
def templateTypeDirs : List (String × List String) :=
  [("image", ["image", "photo", "img"]), ("video", ["video"]),
   ("audio", ["audio", "music", "bgm", "se", "voice"])]

/-- The keys of `TEMPLATE_TYPE_DIRS` (`logical_types` in
`_build_material_map`). -/
def logicalTypes : List String := ["image", "video", "audio"]

/-- The hard-coded `direct_change_subdirs` list of `_build_material_map`. -/
def directChangeSubdirs : List String := ["bgm", "img", "se", "video", "voice"]

/-- Name sanitization used for path construction:
`"".join(c if c.isalnum() or c in ('_', '-') else '_' for c in name)`. -/
def sanitizeName (s : String) : String :=
  (s.data.map (fun c => if c.isAlphanum || c = '_' || c = '-' then c else '_')).asString

/-- `FileSystemHandler.find_change_material`: `None` when any argument is
empty, otherwise a single `isfile` probe of
`base / sanitized-project / type / filename`. -/
def findChangeMaterial (fs : FS) (csvFilename projectName materialType
    changeMaterialBase : String) : Option String :=
  if changeMaterialBase = "" || csvFilename = "" || projectName = "" || materialType = ""
  then none
  else
    let p := pathJoin (pathJoin (pathJoin (pathResolve changeMaterialBase)
      (sanitizeName projectName)) materialType) csvFilename
    if fs.isFile p then some p else none

/-- The alias-directory scan of `find_template_material_by_name`: the first
alias directory that exists and contains an exact filename match wins. -/
def searchTemplateDirs (fs : FS) (projPath : String) (filename : String) :
    List String → Option String
  | [] => none
  | d :: ds =>
    let searchDir := pathJoin projPath d
    if fs.isDir searchDir then
      let target := pathJoin searchDir filename
      if fs.isFile target then some (pathResolve target)
      else searchTemplateDirs fs projPath filename ds
    else searchTemplateDirs fs projPath filename ds

/-- `FileSystemHandler.find_template_material_by_name`.  An empty filename
or material type returns `None`; then `template_material_project_path`
gets an unguarded `.is_dir()` call, which raises `AttributeError` when the
caller passed `None` (the missing-template-base case of
`_build_material_map`); a non-directory project path returns `None`;
otherwise the alias directories of the logical type (defaulting to the
type itself) are scanned. -/
def findTemplateMaterialByName (fs : FS) (filename : String)
    (templateProjPath : Option String) (materialType : String) :
    Except PyErr (Option String) :=
  if filename = "" || materialType = "" then .ok none
  else
    match templateProjPath with
    | none => .error .attrNoneIsDir
    | some pp =>
      if fs.isDir pp then
        let dirs := ((templateTypeDirs.find? (fun kv => kv.1 = materialType)).map (·.2)).getD
          [materialType]
        .ok (searchTemplateDirs fs pp filename dirs)
      else .ok none

/-- Stage-wise determination of `mapped_type_dir` in `_build_material_map`:
a placeholder prefix hit in `MATERIAL_TYPE_MAP`, else the material's own
declared type when it is one of `MATERIAL_SUBFOLDERS`, else the parent
directory name of the original path when it is a logical type. -/
def mappedTypeDirOf (placeholderBase : String) (materialType : J)
    (origPath : String) : Option String :=
  let m1 : Option String :=
    if placeholderBase ≠ "" then
      (materialTypeMap.find? (fun pr => strBeginsWith placeholderBase (pr.1 ++ "_"))).map (·.2)
    else none
  match m1 with
  | some t => some t
  | none =>
    let m2 : Option String :=
      if pyTruthy materialType then
        match materialType with
        | .str t => if materialSubfolders.contains t then some t else none
        | _ => none
      else none
    match m2 with
    | some t => some t
    | none =>
      if origPath ≠ "" then
        let pd := pathParentName origPath
        if logicalTypes.contains pd then some pd else none
      else none

/-- Determination of `change_subdir_to_search`: the placeholder's first
`_`-separated segment when it is one of the hard-coded change subdirs. -/
def changeSubdirOf (placeholderBase : String) : Option String :=
  if placeholderBase ≠ "" then
    let potential := splitHead '_' placeholderBase
    if directChangeSubdirs.contains potential then some potential else none
  else none

/-- Per-resolution-pass environment of `_build_material_map`: the abstract
filesystem, the CSV row, the derived template project path and resolved
change base path, and the project name used for change-material search. -/
structure REnv where
  fs : FS
  csvRow : List (String × String)
  templateProjPath : Option String
  changeBasePath : Option String
  projectNameForChange : String

/-- Mutable loop state of `_build_material_map`: the material map being
accumulated, the set of already-processed placeholders, and the
function-local `change_path` variable (`none` while still unassigned —
reading it in that state is Python's `UnboundLocalError`). -/
structure MState where
  mmap : List (String × String)
  processed : List String
  changeVar : Option (Option String)

/-- String payload of a field fetched with `material.get(key, "")`.  The
model assumes the CapCut schema here: a non-string payload in a path field
would make Python fail later at `Path(...)`; no claim exercises that. -/
def getStrField (fields : List (String × J)) (key : String) : String :=
  match alookup fields key with
  | some (.str s) => s
  | _ => ""

/-- The template-tree fallback shared by all three search branches of
`_build_material_map` (lines 263–283, 286–306 and 307–325 of
`capcut_handler.py`): when a logical type and an original path are
available, search the template tree for the original filename and fall
back to the original path on a miss; with either missing, keep the
original path. -/
def templateFallback (env : REnv) (mappedTypeDir : Option String)
    (origPath : String) : Except PyErr String :=
  match mappedTypeDir with
  | some mt =>
    if origPath ≠ "" then
      match findTemplateMaterialByName env.fs (pathName origPath) env.templateProjPath mt with
      | .error e => .error e
      | .ok (some tp) => .ok tp
      | .ok none => .ok origPath
    else .ok origPath
  | none => .ok origPath

/-- The fallback chain of `_build_material_map` for one material, lines
245–325 of `capcut_handler.py`, once the placeholder, CSV override, mapped
logical type and change subdirectory have been derived: a CSV override
first probes the change tree (raising `UnboundLocalError` when the
function-local `change_path` is read before any assignment, i.e. when the
change base is missing), then falls back to the template tree; without an
override only the template tree is searched.  Returns the final path and
the updated `change_path` local. -/
def resolveStep (env : REnv) (st : MState) (csvFilename : Option String)
    (overrideExists : Bool) (mappedTypeDir changeSubdir : Option String)
    (origPath : String) : Except PyErr (String × Option (Option String)) :=
  if changeSubdir.isNone && mappedTypeDir.isNone then
    .ok (origPath, st.changeVar)
  else if overrideExists then
    let cf := csvFilename.getD ""
    match changeSubdir with
    | some sd =>
      let cv2 : Option (Option String) :=
        match env.changeBasePath with
        | some cb =>
          some (findChangeMaterial env.fs cf env.projectNameForChange sd cb)
        | none => st.changeVar
      match cv2 with
      | none => .error .unboundChangePath
      | some (some cp) => .ok (cp, cv2)
      | some none =>
        match templateFallback env mappedTypeDir origPath with
        | .error e => .error e
        | .ok fp => .ok (fp, cv2)
    | none =>
      match templateFallback env mappedTypeDir origPath with
      | .error e => .error e
      | .ok fp => .ok (fp, st.changeVar)
  else
    match mappedTypeDir with
    | some mt =>
      if origPath ≠ "" then
        match findTemplateMaterialByName env.fs (pathName origPath)
            env.templateProjPath mt with
        | .error e => .error e
        | .ok (some tp) => .ok (tp, st.changeVar)
        | .ok none => .ok (origPath, st.changeVar)
      else .ok ("", st.changeVar)
    | none => .ok ("", st.changeVar)

/-- The body of the material loop of `_build_material_map` for one declared
material: derive the placeholder from `extra_info` (text before the first
dot), skip empty or duplicate entries, determine the CSV override, the
mapped logical type and the change subdirectory, then resolve the final
value through `resolveStep` and register it under the placeholder and
(when different) the original path. -/
def processMaterial (env : REnv) (st : MState) (material : J) : Except PyErr MState :=
  match material with
  | .obj fields =>
    let origPath := getStrField fields "file_Path"
    let extraInfoVal := (alookup fields "extra_info").getD (.str "")
    let placeholderBase :=
      match extraInfoVal with
      | .str s => splitHead '.' s
      | _ => ""
    let materialType := (alookup fields "type").getD (.str "")
    if placeholderBase = "" && origPath = "" then .ok st
    else if placeholderBase ≠ "" && st.processed.contains placeholderBase then .ok st
    else
      let processed2 := if placeholderBase ≠ "" then placeholderBase :: st.processed
        else st.processed
      let csvFilename : Option String :=
        if placeholderBase ≠ "" then slookup env.csvRow placeholderBase else none
      let overrideExists : Bool :=
        match csvFilename with
        | some cf => cf ≠ ""
        | none => false
      let mappedTypeDir := mappedTypeDirOf placeholderBase materialType origPath
      let changeSubdir := changeSubdirOf placeholderBase
      match resolveStep env st csvFilename overrideExists mappedTypeDir
          changeSubdir origPath with
      | .error e => .error e
      | .ok (finalPath, cv2) =>
        let regKey := if placeholderBase ≠ "" then placeholderBase else origPath
        let m1 :=
          if regKey ≠ "" then
            let m0 := sinsert st.mmap regKey finalPath
            if origPath ≠ "" && origPath ≠ regKey then sinsert m0 origPath finalPath
            else m0
          else st.mmap
        .ok ⟨m1, processed2, cv2⟩
  | _ => .ok st

/-- Declared materials of the metadata document: every entry of the
`"value"` list of each `draft_materials` group whose `type` is `0`.  (The
model assumes the CapCut schema shape, i.e. list-typed containers.) -/
def materialsOfMeta (metaData : J) : List J :=
  match metaData with
  | .obj fs0 =>
    match alookup fs0 "draft_materials" with
    | some (.arr groups) =>
      groups.foldr (fun g acc =>
        match g with
        | .obj gf =>
          match alookup gf "type" with
          | some (.num 0) =>
            match alookup gf "value" with
            | some (.arr ms) => ms ++ acc
            | _ => acc
          | _ => acc
        | _ => acc) []
    | _ => []
  | _ => []

/-- The material loop of `_build_material_map`, threading the loop state
and stopping at the first raised exception. -/
def foldMaterials (env : REnv) : List J → MState → Except PyErr MState
  | [], st => .ok st
  | m :: ms, st =>
    match processMaterial env st m with
    | .error e => .error e
    | .ok st2 => foldMaterials env ms st2

/-- Phase 2 of `_build_material_map`: every CSV column that is not
material-prefixed, not the project-name column and non-empty is registered
as a text substitution, unless a material already claimed that key. -/
def addTextColumns (mmap : List (String × String))
    (csvRow : List (String × String)) : List (String × String) :=
  csvRow.foldl (fun m kv =>
    let isMaterial := materialTypeMap.any (fun pr => strBeginsWith kv.1 (pr.1 ++ "_"))
    if !isMaterial && strLower kv.1 ≠ "projectname" && kv.2 ≠ "" then
      match slookup m kv.1 with
      | some _ => m
      | none => sinsert m kv.1 kv.2
    else m) mmap

/-- `CapcutHandler._build_material_map`.  `templateName` is the result of
`get_template_project_name()` (the extraction falls back to
`"UnknownTemplate"`, never an empty value) and `projectPathName` is
`self.project_path.name`, the default for a missing `ProjectName` column. -/
def buildMaterialMap (fs : FS) (metaData : J) (csvRow : List (String × String))
    (templateMaterialBase changeMaterialBase templateName projectPathName : String) :
    Except PyErr (List (String × String)) :=
  let templateProjPath : Option String :=
    if templateMaterialBase = "" then none
    else
      let tb := pathResolve templateMaterialBase
      if pathName tb = templateName then some tb else some (pathJoin tb templateName)
  let changeBasePath : Option String :=
    if changeMaterialBase = "" then none else some (pathResolve changeMaterialBase)
  let projectNameForChange := (slookup csvRow "ProjectName").getD projectPathName
  let env : REnv := ⟨fs, csvRow, templateProjPath, changeBasePath, projectNameForChange⟩
  match foldMaterials env (materialsOfMeta metaData) ⟨[], [], none⟩ with
  | .error e => .error e
  | .ok st => .ok (addTextColumns st.mmap csvRow)

/-- Is the value a Python string? (`isinstance(value, str)`). -/
def J.isStr : J → Bool
  | .str _ => true
  | _ => false

/-- Fuelled left-to-right replacement of every non-overlapping occurrence
of a non-empty pattern (fuel-structural so that it reduces; `strReplace`
supplies sufficient fuel). -/
def replFuel : Nat → List Char → List Char → List Char → List Char
  | 0, s, _, _ => s
  | _ + 1, [], _, _ => []
  | f + 1, c :: cs, pat, repl =>
    if beginsWith pat (c :: cs) then repl ++ replFuel f (List.drop pat.length (c :: cs)) pat repl
    else c :: replFuel f cs pat repl

/-- The semantic substitution function of a compiled literal (meta-free)
regex pattern: `re.sub(pat, repl, s)` replaces every non-overlapping
occurrence of `pat` left to right.  An empty pattern is left as a no-op
here (Python would insert between every character; no configuration in the
repository uses one). -/
def strReplace (s pat repl : String) : String :=
  if pat.data.isEmpty then s
  else (replFuel (s.data.length + 1) s.data pat.data repl.data).asString

/-! ## Round trip: `loads (dumps v) = some v` -/

mutual

/-- Node-count measure of a value, used as the fuel bound for parsing its
serialization. -/
def szJ : J → Nat
  | .str _ => 1
  | .num _ => 1
  | .bool _ => 1
  | .null => 1
  | .arr es => 1 + szEls es
  | .obj fs => 1 + szFlds fs

/-- Node-count measure of an array's elements. -/
def szEls : List J → Nat
  | [] => 0
  | e :: rest => 1 + szJ e + szEls rest

/-- Node-count measure of an object's members. -/
def szFlds : List (String × J) → Nat
  | [] => 0
  | (_, v) :: rest => 1 + szJ v + szFlds rest

end

/-- Boundary condition on the input following a serialized number: the next
character must not extend the numeral. -/
def numBoundary : List Char → Prop
  | [] => True
  | c :: _ => c.isDigit = false ∧ c ≠ '.' ∧ c ≠ 'e' ∧ c ≠ 'E'

/-! ## Structural equality up to nested-JSON re-serialization -/

/-- Equality of documents up to compact re-serialization of nested-JSON
strings under content keys.  `objConsContent` is the one place the two
sides may differ: a content-key string field whose two versions both parse,
to structures again related by the same relation (the recursive clause is
what "semantically equal when re-parsed" means at depth: a re-parsed
re-serialized field may again contain compacted content strings). -/
inductive JRel (cks : List String) : J → J → Prop where
  | str (s : String) : JRel cks (.str s) (.str s)
  | num (n : Int) : JRel cks (.num n) (.num n)
  | bool (b : Bool) : JRel cks (.bool b) (.bool b)
  | null : JRel cks .null .null
  | arrNil : JRel cks (.arr []) (.arr [])
  | arrCons {v v' : J} {es es' : List J} :
      JRel cks v v' → JRel cks (.arr es) (.arr es') →
      JRel cks (.arr (v :: es)) (.arr (v' :: es'))
  | objNil : JRel cks (.obj []) (.obj [])
  | objConsPlain {k : String} {v v' : J} {fs fs' : List (String × J)} :
      JRel cks v v' → JRel cks (.obj fs) (.obj fs') →
      JRel cks (.obj ((k, v) :: fs)) (.obj ((k, v') :: fs'))
  | objConsContent {k s s' : String} {x x' : J} {fs fs' : List (String × J)} :
      k ∈ cks → loads s = some x → loads s' = some x' → JRel cks x x' →
      JRel cks (.obj fs) (.obj fs') →
      JRel cks (.obj ((k, .str s) :: fs)) (.obj ((k, .str s') :: fs'))

/-- Structural induction principle for `J` giving element-wise hypotheses
for the nested lists. -/
theorem J.ind (P : J → Prop)
    (hstr : ∀ s, P (.str s)) (hnum : ∀ n, P (.num n)) (hbool : ∀ b, P (.bool b))
    (hnull : P .null)
    (harr : ∀ es, (∀ e ∈ es, P e) → P (.arr es))
    (hobj : ∀ fs, (∀ kv ∈ fs, P kv.2) → P (.obj fs)) :
    ∀ v, P v
  | .str s => hstr s
  | .num n => hnum n
  | .bool b => hbool b
  | .null => hnull
  | .arr es => harr es (fun e he =>
      have : sizeOf e < 1 + sizeOf es := by
        have h1 := List.sizeOf_lt_of_mem he
        omega
      J.ind P hstr hnum hbool hnull harr hobj e)
  | .obj fs => hobj fs (fun kv hkv =>
      have : sizeOf kv.2 < 1 + sizeOf fs := by
        have h1 := List.sizeOf_lt_of_mem hkv
        have h2 : sizeOf kv.2 < sizeOf kv := by
          obtain ⟨a, b⟩ := kv
          simp only [Prod.mk.sizeOf_spec]
          omega
        omega
      J.ind P hstr hnum hbool hnull harr hobj kv.2)
termination_by v => sizeOf v

theorem skipWs_cons_of_not_ws {c : Char} (h : isWsChar c = false) (l : List Char) :
    skipWs (c :: l) = c :: l := by
  simp [skipWs, List.dropWhile, h]

theorem digit_facts : ∀ m < 10, (digitChar m).isDigit = true ∧ (digitChar m).toNat - 48 = m := by
  decide

theorem digitsVal_append_one (xs : List Char) (d : Char) :
    digitsVal (xs ++ [d]) = 10 * digitsVal xs + (d.toNat - 48) := by
  simp [digitsVal, List.foldl_append]

theorem natCharsF_spec : ∀ f n, n < f →
    natCharsF f n ≠ [] ∧ (∀ c ∈ natCharsF f n, c.isDigit = true) ∧
      digitsVal (natCharsF f n) = n := by
  intro f
  induction f with
  | zero => intro n h; omega
  | succ f ih =>
    intro n h
    by_cases h10 : n < 10
    · simp only [natCharsF, if_pos h10]
      refine ⟨by simp, ?_, ?_⟩
      · intro c hc
        simp only [List.mem_singleton] at hc
        subst hc
        exact (digit_facts n h10).1
      · have h2 := (digit_facts n h10).2
        simp [digitsVal]
        omega
    · have hdiv : n / 10 < f := by omega
      obtain ⟨hne, hdig, hval⟩ := ih (n / 10) hdiv
      simp only [natCharsF, if_neg h10]
      refine ⟨by simp, ?_, ?_⟩
      · intro c hc
        rcases List.mem_append.mp hc with hc1 | hc2
        · exact hdig c hc1
        · simp only [List.mem_singleton] at hc2
          subst hc2
          exact (digit_facts (n % 10) (by omega)).1
      · rw [digitsVal_append_one, hval, (digit_facts (n % 10) (by omega)).2]
        omega

theorem natChars_spec (n : Nat) :
    natChars n ≠ [] ∧ (∀ c ∈ natChars n, c.isDigit = true) ∧ digitsVal (natChars n) = n :=
  natCharsF_spec (n + 1) n (by omega)

theorem digit_ne_hyphen {c : Char} (h : c.isDigit = true) : c ≠ '-' := by
  intro he
  subst he
  simp at h

theorem takeWhile_digits_append (ds rest : List Char)
    (hall : ∀ c ∈ ds, c.isDigit = true) (hb : numBoundary rest) :
    (ds ++ rest).takeWhile Char.isDigit = ds ∧
      (ds ++ rest).dropWhile Char.isDigit = rest := by
  induction ds with
  | nil =>
    simp only [List.nil_append]
    cases rest with
    | nil => simp
    | cons c cs =>
      obtain ⟨h1, _⟩ := hb
      constructor
      · simp [List.takeWhile, h1]
      · simp [List.dropWhile, h1]
  | cons d ds ih =>
    have hd := hall d (by simp)
    obtain ⟨ih1, ih2⟩ := ih (fun c hc => hall c (by simp [hc]))
    constructor
    · simp [List.takeWhile, hd, ih1]
    · simp [List.dropWhile, hd, ih2]

theorem floatFollows_eq_false {rest : List Char} (hb : numBoundary rest) :
    floatFollows rest = false := by
  cases rest with
  | nil => rfl
  | cons c cs =>
    obtain ⟨_, h2, h3, h4⟩ := hb
    rw [floatFollows.eq_def]
    split
    · rename_i heq; injection heq with h1 _; simp_all
    · rename_i heq; injection heq with h1 _; simp_all
    · rename_i heq; injection heq with h1 _; simp_all
    · rfl

theorem parseNatPart_natChars (n : Nat) (rest : List Char) (hb : numBoundary rest) :
    parseNatPart (natChars n ++ rest) = some (n, rest) := by
  obtain ⟨hne, hdig, hval⟩ := natChars_spec n
  obtain ⟨htake, hdrop⟩ := takeWhile_digits_append (natChars n) rest hdig hb
  unfold parseNatPart
  simp only [htake, hdrop]
  rw [if_neg (by simp [List.isEmpty_iff, hne]), if_neg (by simp [floatFollows_eq_false hb]),
    hval]

theorem parseNum_natChars (n : Nat) (rest : List Char) (hb : numBoundary rest) :
    parseNum (natChars n ++ rest) = some ((n : Int), rest) := by
  obtain ⟨hne, hdig, hval⟩ := natChars_spec n
  obtain ⟨d, ds, hds⟩ : ∃ d ds, natChars n = d :: ds := by
    cases h : natChars n with
    | nil => exact absurd h hne
    | cons d ds => exact ⟨d, ds, rfl⟩
  have hd : d.isDigit = true := hdig d (by rw [hds]; simp)
  have hne2 : d ≠ '-' := digit_ne_hyphen hd
  rw [hds, List.cons_append, parseNum, if_neg hne2, ← List.cons_append, ← hds,
    parseNatPart_natChars n rest hb]
  rfl

theorem parseNum_intChars (i : Int) (rest : List Char) (hb : numBoundary rest) :
    parseNum (intChars i ++ rest) = some (i, rest) := by
  by_cases hneg : i < 0
  · simp only [intChars, if_pos hneg, List.cons_append]
    rw [parseNum, if_pos rfl, parseNatPart_natChars i.natAbs rest hb]
    have h2 : -(i.natAbs : Int) = i := by omega
    simp only [Option.map, h2]
  · have h1 : intChars i = natChars i.toNat := by simp [intChars, if_neg hneg]
    rw [h1, parseNum_natChars i.toNat rest hb]
    congr 2
    omega

theorem hexVal_hexDigitChar : ∀ n < 16, hexVal (hexDigitChar n) = some n := by
  decide

theorem asString_data (s : String) : s.data.asString = s := rfl


theorem decodeU_spec (d1 d2 : Char) (a b : Nat) (tl : List Char)
    (h1 : hexVal d1 = some a) (h2 : hexVal d2 = some b)
    (hlt : ((0 * 16 + 0) * 16 + a) * 16 + b < 0xd800) :
    decodeU ('0' :: '0' :: d1 :: d2 :: tl) =
      some (Char.ofNat (((0 * 16 + 0) * 16 + a) * 16 + b), tl) := by
  simp only [decodeU, show hexVal '0' = some 0 from rfl, h1, h2]
  rw [if_neg (by omega)]

theorem escapeChar_length_pos (c : Char) : 1 ≤ (escapeChar c).length := by
  unfold escapeChar
  split_ifs <;> simp

theorem escapeL_length (s : List Char) : s.length ≤ (escapeL s).length := by
  induction s with
  | nil => simp [escapeL]
  | cons c cs ih =>
    show cs.length + 1 ≤ (escapeChar c ++ escapeL cs).length
    have := escapeChar_length_pos c
    simp only [List.length_append]
    omega

theorem parseStrBodyF_escapeL : ∀ (s : List Char) (f : Nat) (rest : List Char),
    s.length < f → parseStrBodyF f (escapeL s ++ '"' :: rest) = some (s, rest) := by
  intro s
  induction s with
  | nil =>
    intro f rest h
    obtain ⟨g, rfl⟩ : ∃ g, f = g + 1 := ⟨f - 1, by omega⟩
    rfl
  | cons c cs ih =>
    intro f rest h
    obtain ⟨g, rfl⟩ : ∃ g, f = g + 1 := ⟨f - 1, by omega⟩
    have hg : cs.length < g := by simp at h; omega
    show parseStrBodyF (g + 1) ((escapeChar c ++ escapeL cs) ++ '"' :: rest) = _
    rw [List.append_assoc]
    by_cases h1 : c = '"'
    · subst h1
      have st : parseStrBodyF (g + 1) ('\\' :: '"' :: (escapeL cs ++ '"' :: rest)) =
          (fun p => (('"' : Char) :: p.1, p.2)) <$>
            parseStrBodyF g (escapeL cs ++ '"' :: rest) := rfl
      rw [show escapeChar '"' = ['\\', '"'] from rfl]
      simp only [List.cons_append, List.nil_append]
      rw [st, ih g rest hg]
      rfl
    · by_cases h2 : c = '\\'
      · subst h2
        rw [show escapeChar '\\' = ['\\', '\\'] from rfl]
        simp only [List.cons_append, List.nil_append]
        rw [show parseStrBodyF (g + 1) ('\\' :: '\\' :: (escapeL cs ++ '"' :: rest)) =
          (fun p => (('\\' : Char) :: p.1, p.2)) <$>
            parseStrBodyF g (escapeL cs ++ '"' :: rest) from rfl, ih g rest hg]
        rfl
      · by_cases h3 : c = Char.ofNat 8
        · subst h3
          rw [show escapeChar (Char.ofNat 8) = ['\\', 'b'] from rfl]
          simp only [List.cons_append, List.nil_append]
          rw [show parseStrBodyF (g + 1) ('\\' :: 'b' :: (escapeL cs ++ '"' :: rest)) =
            (fun p => ((Char.ofNat 8) :: p.1, p.2)) <$>
              parseStrBodyF g (escapeL cs ++ '"' :: rest) from rfl, ih g rest hg]
          rfl
        · by_cases h4 : c = Char.ofNat 9
          · subst h4
            rw [show escapeChar (Char.ofNat 9) = ['\\', 't'] from rfl]
            simp only [List.cons_append, List.nil_append]
            rw [show parseStrBodyF (g + 1) ('\\' :: 't' :: (escapeL cs ++ '"' :: rest)) =
              (fun p => ((Char.ofNat 9) :: p.1, p.2)) <$>
                parseStrBodyF g (escapeL cs ++ '"' :: rest) from rfl, ih g rest hg]
            rfl
          · by_cases h5 : c = Char.ofNat 10
            · subst h5
              rw [show escapeChar (Char.ofNat 10) = ['\\', 'n'] from rfl]
              simp only [List.cons_append, List.nil_append]
              rw [show parseStrBodyF (g + 1) ('\\' :: 'n' :: (escapeL cs ++ '"' :: rest)) =
                (fun p => ((Char.ofNat 10) :: p.1, p.2)) <$>
                  parseStrBodyF g (escapeL cs ++ '"' :: rest) from rfl, ih g rest hg]
              rfl
            · by_cases h6 : c = Char.ofNat 12
              · subst h6
                rw [show escapeChar (Char.ofNat 12) = ['\\', 'f'] from rfl]
                simp only [List.cons_append, List.nil_append]
                rw [show parseStrBodyF (g + 1) ('\\' :: 'f' :: (escapeL cs ++ '"' :: rest)) =
                  (fun p => ((Char.ofNat 12) :: p.1, p.2)) <$>
                    parseStrBodyF g (escapeL cs ++ '"' :: rest) from rfl, ih g rest hg]
                rfl
              · by_cases h7 : c = Char.ofNat 13
                · subst h7
                  rw [show escapeChar (Char.ofNat 13) = ['\\', 'r'] from rfl]
                  simp only [List.cons_append, List.nil_append]
                  rw [show parseStrBodyF (g + 1)
                      ('\\' :: 'r' :: (escapeL cs ++ '"' :: rest)) =
                    (fun p => ((Char.ofNat 13) :: p.1, p.2)) <$>
                      parseStrBodyF g (escapeL cs ++ '"' :: rest) from rfl, ih g rest hg]
                  rfl
                · by_cases h8 : c.toNat < 32
                  · have hq : escapeChar c = ['\\', 'u', '0', '0',
                        hexDigitChar (c.toNat / 16), hexDigitChar (c.toNat % 16)] := by
                      simp [escapeChar, h1, h2, h3, h4, h5, h6, h7, h8]
                    rw [hq]
                    simp only [List.cons_append, List.nil_append]
                    rw [show ∀ (g : Nat) (tl : List Char),
                        parseStrBodyF (g + 1) ('\\' :: 'u' :: tl) =
                        (match decodeU tl with
                         | some (d, cs2) => (fun p => (d :: p.1, p.2)) <$> parseStrBodyF g cs2
                         | none => none) from fun g tl => rfl]
                    rw [decodeU_spec (hexDigitChar (c.toNat / 16))
                      (hexDigitChar (c.toNat % 16)) (c.toNat / 16) (c.toNat % 16) _
                      (hexVal_hexDigitChar (c.toNat / 16) (by omega))
                      (hexVal_hexDigitChar (c.toNat % 16) (by omega)) (by omega)]
                    have hval : ((0 * 16 + 0) * 16 + c.toNat / 16) * 16 + c.toNat % 16
                        = c.toNat := by omega
                    rw [hval, Char.ofNat_toNat]
                    simp only []
                    rw [ih g rest hg]
                    rfl
                  · have hq : escapeChar c = [c] := by
                      simp [escapeChar, h1, h2, h3, h4, h5, h6, h7, h8]
                    rw [hq]
                    simp only [List.cons_append, List.nil_append]
                    rw [parseStrBodyF]
                    rw [if_neg h1, if_neg h2, ih g rest hg]
                    rfl

theorem parseStrBody_escapeL (s rest : List Char) :
    parseStrBody (escapeL s ++ '"' :: rest) = some (s, rest) := by
  apply parseStrBodyF_escapeL
  have := escapeL_length s
  simp only [List.length_append, List.length_cons]
  omega

theorem not_ws_of_digit {c : Char} (h : c.isDigit = true) : isWsChar c = false := by
  cases hw : isWsChar c
  · rfl
  · exfalso
    simp only [isWsChar, Bool.or_eq_true, decide_eq_true_eq] at hw
    rcases hw with (((h1 | h1) | h1) | h1) <;> (subst h1; simp at h)

theorem digit_ne_rbracket {c : Char} (h : c.isDigit = true) : c ≠ ']' := by
  intro he
  subst he
  simp at h

theorem szJ_pos : ∀ v : J, 1 ≤ szJ v := by
  intro v
  cases v <;> simp [szJ]

theorem szFlds_pos {fs : List (String × J)} (h : fs ≠ []) : 1 ≤ szFlds fs := by
  cases fs with
  | nil => exact absurd rfl h
  | cons kv tl =>
    obtain ⟨k, v⟩ := kv
    simp [szFlds]
    omega

theorem szEls_pos {es : List J} (h : es ≠ []) : 1 ≤ szEls es := by
  cases es with
  | nil => exact absurd rfl h
  | cons e tl =>
    simp [szEls]
    omega

theorem numBoundary_nil : numBoundary [] := trivial

theorem numBoundary_comma (X : List Char) : numBoundary (',' :: X) :=
  ⟨by decide, by decide, by decide, by decide⟩

theorem numBoundary_rbrace (X : List Char) : numBoundary ('}' :: X) :=
  ⟨by decide, by decide, by decide, by decide⟩

theorem numBoundary_rbracket (X : List Char) : numBoundary (']' :: X) :=
  ⟨by decide, by decide, by decide, by decide⟩

set_option maxHeartbeats 1000000 in
theorem parseVal_digit_head (f : Nat) (c : Char) (tl : List Char) (hc : c.isDigit = true) :
    parseVal (f + 1) (c :: tl) = (fun p => (J.num p.1, p.2)) <$> parseNum (c :: tl) := by
  rw [parseVal]
  rw [skipWs_cons_of_not_ws (not_ws_of_digit hc)]
  split
  · rename_i cs heq; injection heq with h1 h2; subst h1; simp at hc
  · rename_i cs heq; injection heq with h1 h2; subst h1; simp at hc
  · rename_i cs heq; injection heq with h1 h2; subst h1; simp at hc
  · rename_i cs heq; injection heq with h1 h2; subst h1; simp at hc
  · rename_i cs heq; injection heq with h1 h2; subst h1; simp at hc
  · rename_i cs heq; injection heq with h1 h2; subst h1; simp at hc
  · rfl

theorem ser_head_spec : ∀ v : J, ∃ c tl, ser v = c :: tl ∧ isWsChar c = false ∧ c ≠ ']' := by
  intro v
  cases v with
  | str s =>
    exact ⟨'"', escapeL s.data ++ ['"'], by simp [ser, quoteL], by decide, by decide⟩
  | num i =>
    by_cases hneg : i < 0
    · exact ⟨'-', natChars i.natAbs, by simp [ser, intChars, if_pos hneg], by decide,
        by decide⟩
    · have h1 : ser (.num i) = natChars i.toNat := by simp [ser, intChars, if_neg hneg]
      obtain ⟨hne, hdig, _⟩ := natChars_spec i.toNat
      obtain ⟨d, ds, hds⟩ : ∃ d ds, natChars i.toNat = d :: ds := by
        cases hx : natChars i.toNat with
        | nil => exact absurd hx hne
        | cons d ds => exact ⟨d, ds, rfl⟩
      have hd := hdig d (by rw [hds]; simp)
      exact ⟨d, ds, by rw [h1, hds], not_ws_of_digit hd, digit_ne_rbracket hd⟩
  | bool b =>
    cases b with
    | true => exact ⟨'t', ['r', 'u', 'e'], rfl, by decide, by decide⟩
    | false => exact ⟨'f', ['a', 'l', 's', 'e'], rfl, by decide, by decide⟩
  | null => exact ⟨'n', ['u', 'l', 'l'], rfl, by decide, by decide⟩
  | arr es => exact ⟨'[', serEls es ++ [']'], by simp [ser], by decide, by decide⟩
  | obj fs => exact ⟨'{', serFlds fs ++ ['}'], by simp [ser], by decide, by decide⟩

theorem parseVal_quote_step (f : Nat) (tl : List Char) :
    parseVal (f + 1) ('"' :: tl) =
      (fun p => (J.str p.1.asString, p.2)) <$> parseStrBody tl := rfl

theorem parseVal_obj_step (f : Nat) (tl : List Char) :
    parseVal (f + 1) ('{' :: tl) =
      (match skipWs tl with
       | '}' :: cs2 => some (J.obj [], cs2)
       | cs1 => (fun p => (J.obj p.1, p.2)) <$> parseFlds f cs1) := rfl

theorem parseVal_arr_step (f : Nat) (tl : List Char) :
    parseVal (f + 1) ('[' :: tl) =
      (match skipWs tl with
       | ']' :: cs2 => some (J.arr [], cs2)
       | cs1 => (fun p => (J.arr p.1, p.2)) <$> parseEls f cs1) := rfl

theorem parseEls_step (f : Nat) (cs0 : List Char) :
    parseEls (f + 1) cs0 =
      (match parseVal f cs0 with
       | none => none
       | some (v, cs1) =>
         match skipWs cs1 with
         | ',' :: cs2 => (fun p => (v :: p.1, p.2)) <$> parseEls f cs2
         | ']' :: cs2 => some ([v], cs2)
         | _ => none) := rfl

theorem parseFlds_key_step (f : Nat) (tl tail : List Char) (kcs : List Char)
    (hp : parseStrBody tl = some (kcs, ':' :: tail)) :
    parseFlds (f + 1) ('"' :: tl) =
      (match parseVal f tail with
       | none => none
       | some (v, cs3) =>
         match skipWs cs3 with
         | ',' :: cs4 => (fun p => ((kcs.asString, v) :: p.1, p.2)) <$> parseFlds f cs4
         | '}' :: cs4 => some ([(kcs.asString, v)], cs4)
         | _ => none) := by
  have h0 : parseFlds (f + 1) ('"' :: tl) =
      (match parseStrBody tl with
       | none => none
       | some (kcs, cs1) =>
         match skipWs cs1 with
         | ':' :: cs2 =>
           match parseVal f cs2 with
           | none => none
           | some (v, cs3) =>
             match skipWs cs3 with
             | ',' :: cs4 => (fun p => ((kcs.asString, v) :: p.1, p.2)) <$> parseFlds f cs4
             | '}' :: cs4 => some ([(kcs.asString, v)], cs4)
             | _ => none
         | _ => none) := rfl
  rw [h0, hp]
  rfl

set_option maxHeartbeats 2000000 in
theorem parse_ser_master : ∀ f : Nat,
    (∀ (v : J) (rest : List Char), szJ v < f → numBoundary rest →
      parseVal f (ser v ++ rest) = some (v, rest)) ∧
    (∀ (fs : List (String × J)) (rest : List Char), fs ≠ [] → szFlds fs < f →
      parseFlds f (serFlds fs ++ '}' :: rest) = some (fs, rest)) ∧
    (∀ (es : List J) (rest : List Char), es ≠ [] → szEls es < f →
      parseEls f (serEls es ++ ']' :: rest) = some (es, rest)) := by
  intro f
  induction f with
  | zero =>
    refine ⟨?_, ?_, ?_⟩
    · intro v rest hsz _
      exact absurd hsz (by have := szJ_pos v; omega)
    · intro fs rest hne hsz
      exact absurd hsz (by have := szFlds_pos hne; omega)
    · intro es rest hne hsz
      exact absurd hsz (by have := szEls_pos hne; omega)
  | succ f ih =>
    obtain ⟨ihv, ihf, ihe⟩ := ih
    refine ⟨?_, ?_, ?_⟩
    · intro v rest hsz hb
      cases v with
      | str s =>
        have harr : ser (J.str s) ++ rest = '"' :: (escapeL s.data ++ '"' :: rest) := by
          simp [ser, quoteL]
        rw [harr, parseVal_quote_step, parseStrBody_escapeL]
        simp [asString_data]
      | num i =>
        have hstep : parseVal (f + 1) (intChars i ++ rest) =
            (fun p => (J.num p.1, p.2)) <$> parseNum (intChars i ++ rest) := by
          by_cases hneg : i < 0
          · have h1 : intChars i ++ rest = '-' :: (natChars i.natAbs ++ rest) := by
              simp [intChars, if_pos hneg]
            rw [h1]
            rfl
          · have h1 : intChars i = natChars i.toNat := by simp [intChars, if_neg hneg]
            obtain ⟨hne, hdig, _⟩ := natChars_spec i.toNat
            obtain ⟨d, ds, hds⟩ : ∃ d ds, natChars i.toNat = d :: ds := by
              cases hx : natChars i.toNat with
              | nil => exact absurd hx hne
              | cons d ds => exact ⟨d, ds, rfl⟩
            have hd := hdig d (by rw [hds]; simp)
            rw [h1, hds, List.cons_append, parseVal_digit_head f d (ds ++ rest) hd]
        show parseVal (f + 1) (intChars i ++ rest) = _
        rw [hstep, parseNum_intChars i rest hb]
        rfl
      | bool b =>
        cases b with
        | true =>
          have harr : ser (J.bool true) ++ rest = 't' :: 'r' :: 'u' :: 'e' :: rest := rfl
          rw [harr]
          rfl
        | false =>
          have harr : ser (J.bool false) ++ rest =
              'f' :: 'a' :: 'l' :: 's' :: 'e' :: rest := rfl
          rw [harr]
          rfl
      | null =>
        have harr : ser J.null ++ rest = 'n' :: 'u' :: 'l' :: 'l' :: rest := rfl
        rw [harr]
        rfl
      | arr es =>
        have harr : ser (J.arr es) ++ rest = '[' :: (serEls es ++ ']' :: rest) := by
          simp [ser]
        rw [harr, parseVal_arr_step]
        cases es with
        | nil =>
          simp only [serEls, List.nil_append]
          rw [skipWs_cons_of_not_ws (by decide)]
          rfl
        | cons e tl =>
          obtain ⟨c, ctl, hser, hws, hnrb⟩ := ser_head_spec e
          have hsz2 : szEls (e :: tl) < f := by
            simp only [szJ] at hsz
            omega
          obtain ⟨Y, hY⟩ : ∃ Y, serEls (e :: tl) ++ ']' :: rest = c :: Y := by
            cases tl with
            | nil => exact ⟨ctl ++ ']' :: rest, by simp [serEls, hser]⟩
            | cons x xs =>
              exact ⟨ctl ++ (',' :: serEls (x :: xs) ++ ']' :: rest), by
                simp [serEls, hser]⟩
          rw [hY, skipWs_cons_of_not_ws hws]
          split
          · rename_i cs2 heq
            injection heq with hcc _
            exact absurd hcc hnrb
          · rw [← hY, ihe (e :: tl) rest (by simp) hsz2]
            rfl
      | obj fs =>
        have harr : ser (J.obj fs) ++ rest = '{' :: (serFlds fs ++ '}' :: rest) := by
          simp [ser]
        rw [harr, parseVal_obj_step]
        cases fs with
        | nil =>
          simp only [serFlds, List.nil_append]
          rw [skipWs_cons_of_not_ws (by decide)]
          rfl
        | cons kv tl =>
          obtain ⟨k, v⟩ := kv
          have hsz2 : szFlds ((k, v) :: tl) < f := by
            simp only [szJ] at hsz
            omega
          obtain ⟨Y, hY⟩ : ∃ Y, serFlds ((k, v) :: tl) ++ '}' :: rest = '"' :: Y := by
            cases tl with
            | nil =>
              exact ⟨escapeL k.data ++ ['"'] ++ (':' :: ser v) ++ '}' :: rest, by
                simp [serFlds, quoteL]⟩
            | cons x xs =>
              exact ⟨escapeL k.data ++ ['"'] ++
                (':' :: ser v ++ ',' :: serFlds (x :: xs)) ++ '}' :: rest, by
                simp [serFlds, quoteL]⟩
          rw [hY, skipWs_cons_of_not_ws (by decide)]
          split
          · rename_i cs2 heq
            injection heq with hcc _
            exact absurd hcc (by decide)
          · rw [← hY, ihf ((k, v) :: tl) rest (by simp) hsz2]
            rfl
    · intro fs rest hne hsz
      cases fs with
      | nil => exact absurd rfl hne
      | cons kv tl =>
        obtain ⟨k, v⟩ := kv
        have hszv : szJ v < f := by
          simp only [szFlds] at hsz
          omega
        have hsztl : szFlds tl < f := by
          simp only [szFlds] at hsz
          omega
        cases tl with
        | nil =>
          have harr : serFlds [(k, v)] ++ '}' :: rest =
              '"' :: (escapeL k.data ++ '"' :: (':' :: (ser v ++ '}' :: rest))) := by
            simp [serFlds, quoteL]
          rw [harr, parseFlds_key_step f _ (ser v ++ '}' :: rest) k.data
            (parseStrBody_escapeL k.data (':' :: (ser v ++ '}' :: rest))),
            ihv v ('}' :: rest) hszv (numBoundary_rbrace rest)]
          simp only [asString_data]
          rw [skipWs_cons_of_not_ws (by decide)]
          rfl
        | cons x xs =>
          have harr : serFlds ((k, v) :: x :: xs) ++ '}' :: rest =
              '"' :: (escapeL k.data ++ '"' ::
                (':' :: (ser v ++ ',' :: (serFlds (x :: xs) ++ '}' :: rest)))) := by
            simp [serFlds, quoteL]
          rw [harr, parseFlds_key_step f _
            (ser v ++ ',' :: (serFlds (x :: xs) ++ '}' :: rest)) k.data
            (parseStrBody_escapeL k.data _),
            ihv v (',' :: (serFlds (x :: xs) ++ '}' :: rest)) hszv (numBoundary_comma _)]
          show (fun p => ((k.data.asString, v) :: p.1, p.2)) <$>
              parseFlds f (serFlds (x :: xs) ++ '}' :: rest) =
            some ((k, v) :: x :: xs, rest)
          rw [ihf (x :: xs) rest (by simp) hsztl]
          simp [asString_data]
    · intro es rest hne hsz
      cases es with
      | nil => exact absurd rfl hne
      | cons e tl =>
        have hsze : szJ e < f := by
          simp only [szEls] at hsz
          omega
        have hsztl : szEls tl < f := by
          simp only [szEls] at hsz
          omega
        cases tl with
        | nil =>
          have harr : serEls [e] ++ ']' :: rest = ser e ++ ']' :: rest := by
            simp [serEls]
          rw [harr, parseEls_step, ihv e (']' :: rest) hsze (numBoundary_rbracket rest)]
          rfl
        | cons x xs =>
          have harr : serEls (e :: x :: xs) ++ ']' :: rest =
              ser e ++ ',' :: (serEls (x :: xs) ++ ']' :: rest) := by
            simp [serEls]
          rw [harr, parseEls_step,
            ihv e (',' :: (serEls (x :: xs) ++ ']' :: rest)) hsze (numBoundary_comma _)]
          show (fun p => (e :: p.1, p.2)) <$> parseEls f (serEls (x :: xs) ++ ']' :: rest) =
            some (e :: x :: xs, rest)
          rw [ihe (x :: xs) rest (by simp) hsztl]
          rfl

theorem quoteL_length (cs : List Char) : (quoteL cs).length = 2 + (escapeL cs).length := by
  simp [quoteL]
  omega

theorem szFlds_le (fs : List (String × J))
    (h : ∀ kv ∈ fs, szJ kv.2 ≤ (ser kv.2).length) :
    szFlds fs ≤ (serFlds fs).length + 1 := by
  induction fs with
  | nil => simp [szFlds, serFlds]
  | cons kv tl ih =>
    obtain ⟨k, v⟩ := kv
    have hv : szJ v ≤ (ser v).length := h (k, v) (by simp)
    cases tl with
    | nil =>
      simp only [szFlds, serFlds]
      have := quoteL_length k.data
      simp only [List.length_append, List.length_cons]
      omega
    | cons x xs =>
      have ih2 := ih (fun kv hkv => h kv (by simp [hkv]))
      simp only [szFlds, serFlds] at ih2 ⊢
      have := quoteL_length k.data
      simp only [List.length_append, List.length_cons] at ih2 ⊢
      omega

theorem szEls_le (es : List J) (h : ∀ e ∈ es, szJ e ≤ (ser e).length) :
    szEls es ≤ (serEls es).length + 1 := by
  induction es with
  | nil => simp [szEls, serEls]
  | cons e tl ih =>
    have he : szJ e ≤ (ser e).length := h e (by simp)
    cases tl with
    | nil =>
      simp only [szEls, serEls]
      omega
    | cons x xs =>
      have ih2 := ih (fun e2 he2 => h e2 (by simp [he2]))
      simp only [szEls, serEls] at ih2 ⊢
      simp only [List.length_append, List.length_cons] at ih2 ⊢
      omega

theorem szJ_le_ser : ∀ v : J, szJ v ≤ (ser v).length := by
  intro v
  induction v using J.ind with
  | hstr s =>
    simp [szJ, ser, quoteL_length]
    omega
  | hnum n =>
    simp only [szJ, ser]
    by_cases hneg : n < 0
    · simp [intChars, if_pos hneg]
    · simp only [intChars, if_neg hneg]
      obtain ⟨hne, _, _⟩ := natChars_spec n.toNat
      cases hx : natChars n.toNat with
      | nil => exact absurd hx hne
      | cons d ds => simp [hx]
  | hbool b => cases b <;> simp [szJ, ser]
  | hnull => simp [szJ, ser]
  | harr es ih =>
    have := szEls_le es ih
    simp only [szJ, ser, List.length_cons, List.length_append]
    simp at this ⊢
    omega
  | hobj fs ih =>
    have := szFlds_le fs ih
    simp only [szJ, ser, List.length_cons, List.length_append]
    simp at this ⊢
    omega

/-- Round trip of the embedded `json` module: re-parsing a compact
serialization recovers the value. -/
theorem loads_dumps (v : J) : loads (dumps v) = some v := by
  unfold loads dumps
  have hdata : ((ser v).asString).data = ser v := rfl
  rw [hdata]
  have hm := (parse_ser_master ((ser v).length + 1)).1 v []
    (by have := szJ_le_ser v; omega) trivial
  rw [List.append_nil] at hm
  rw [hm]
  rfl

theorem JRel.refl_arr (cks : List String) (es : List J)
    (h : ∀ e ∈ es, JRel cks e e) : JRel cks (.arr es) (.arr es) := by
  induction es with
  | nil => exact .arrNil
  | cons e tl ih => exact .arrCons (h e (by simp)) (ih (fun x hx => h x (by simp [hx])))

theorem JRel.refl_obj (cks : List String) (fs : List (String × J))
    (h : ∀ kv ∈ fs, JRel cks kv.2 kv.2) : JRel cks (.obj fs) (.obj fs) := by
  induction fs with
  | nil => exact .objNil
  | cons kv tl ih =>
    obtain ⟨k, v⟩ := kv
    exact .objConsPlain (h (k, v) (by simp)) (ih (fun x hx => h x (by simp [hx])))

theorem JRel.refl (cks : List String) : ∀ v : J, JRel cks v v := by
  intro v
  induction v using J.ind with
  | hstr s => exact .str s
  | hnum n => exact .num n
  | hbool b => exact .bool b
  | hnull => exact .null
  | harr es ih => exact JRel.refl_arr cks es ih
  | hobj fs ih => exact JRel.refl_obj cks fs ih

theorem processPathValue_empty (c : Ctx) (k s : String) :
    processPathValue emptyEngine c k s = s := rfl

theorem applyTextRules_empty (c : Ctx) (k t : String) :
    applyTextRules emptyEngine c k t = t := rfl

theorem procField_str_empty (f : Nat) (c : Ctx) (k s : String) :
    procField emptyEngine (processItem emptyEngine f) c (k, .str s) =
      (k, .str (if emptyEngine.jsonContentKeys.contains k && bracketStart s then
        match loads s with
        | some nested => dumps (processItem emptyEngine f c nested)
        | none => s
        else s)) := rfl

theorem procField_jrel_empty (f : Nat)
    (ih : ∀ (ctx : Ctx) (item : J),
      JRel ["content"] item (processItem emptyEngine f ctx item)) (c : Ctx) :
    ∀ l : List (String × J),
      JRel ["content"] (.obj l)
        (.obj (l.map (procField emptyEngine (processItem emptyEngine f) c))) := by
  intro l
  induction l with
  | nil => exact JRel.objNil
  | cons kv tl ihl =>
    obtain ⟨k, v⟩ := kv
    simp only [List.map_cons]
    cases v with
    | str s =>
      rw [procField_str_empty]
      by_cases hcond :
          (emptyEngine.jsonContentKeys.contains k && bracketStart s) = true
      · rw [if_pos hcond]
        have hk : k ∈ (["content"] : List String) := by
          have h1 := (Bool.and_eq_true _ _).mp hcond
          have h2 : emptyEngine.jsonContentKeys.contains k = true := h1.1
          exact List.mem_of_elem_eq_true h2
        cases hls : loads s with
        | none =>
          simp only [hls]
          exact .objConsPlain (.str s) ihl
        | some d =>
          simp only [hls]
          exact .objConsContent hk hls (loads_dumps (processItem emptyEngine f c d))
            (ih c d) ihl
      · rw [if_neg hcond]
        exact .objConsPlain (.str s) ihl
    | num n => exact .objConsPlain (.num n) ihl
    | bool b => exact .objConsPlain (.bool b) ihl
    | null => exact .objConsPlain .null ihl
    | obj fs2 => exact .objConsPlain (ih c (.obj fs2)) ihl
    | arr es2 => exact .objConsPlain (ih c (.arr es2)) ihl

theorem procElems_jrel_empty (f : Nat)
    (ih : ∀ (ctx : Ctx) (item : J),
      JRel ["content"] item (processItem emptyEngine f ctx item)) (ctx : Ctx) :
    ∀ es : List J,
      JRel ["content"] (.arr es) (.arr (es.map (processItem emptyEngine f ctx))) := by
  intro es
  induction es with
  | nil => exact JRel.arrNil
  | cons e tl ihl =>
    simp only [List.map_cons]
    exact .arrCons (ih ctx e) ihl

theorem processItem_jrel (fuel : Nat) :
    ∀ (ctx : Ctx) (item : J),
      JRel ["content"] item (processItem emptyEngine fuel ctx item) := by
  induction fuel with
  | zero =>
    intro ctx item
    exact JRel.refl _ _
  | succ f ih =>
    intro ctx item
    cases item with
    | str s => exact JRel.str s
    | num n => exact JRel.num n
    | bool b => exact JRel.bool b
    | null => exact JRel.null
    | arr es => exact procElems_jrel_empty f ih ctx es
    | obj fields => exact procField_jrel_empty f ih { ctx with item := fields } fields

theorem appliesTo_of_mem {r : Rule} {k : String} (h : k ∈ r.targetKeys) :
    r.appliesTo k = true := by
  unfold Rule.appliesTo
  rw [if_neg (by simp [List.isEmpty_iff]; exact List.ne_nil_of_mem h)]
  simp
  exact Or.inr h

/-! ## Claim theorems -/

/-- C8: for every key and every string value containing at least one
configured system-ignore substring, `_process_path_value` returns the value
unchanged — no path rule is applied to it. -/
theorem c8_system_ignored_paths_unchanged (cfg : PMEngine) (ctx : Ctx) (k v : String)
    (h : ∃ p ∈ cfg.systemPathsToIgnore, strContains v p = true) :
    processPathValue cfg ctx k v = v := by
  obtain ⟨p, hp, hc⟩ := h
  unfold processPathValue
  rw [if_pos (show isSystemPath cfg v = true from List.any_eq_true.mpr ⟨p, hp, hc⟩)]

theorem c8_system_ignored_paths_unchanged_witness :
    processPathValue
      ⟨[⟨"pr", ["*"], 1, true, .regex (fun _ => "CHANGED")⟩], [], ["/sys/"], ["content"]⟩
      ⟨[], [], []⟩ "k" "/sys/a.png" = "/sys/a.png" :=
  c8_system_ignored_paths_unchanged _ _ _ _ ⟨"/sys/", by simp, by rfl⟩

/-- C9: for each of the three rule variants, `apply(value, context)`
returns the value unchanged whenever the value is not a string, and the
direct-lookup variant also returns an empty string unchanged. -/
theorem c9_apply_non_string_passthrough :
    (∀ (r : Rule) (ctx : Ctx) (v : J), v.isStr = false → r.apply ctx v = v) ∧
    (∀ (methods : List LookupMethod) (ctx : Ctx),
      lookupRuleApply methods ctx (.str "") = .str "") := by
  constructor
  · intro r ctx v hv
    obtain ⟨i, tks, pr, en, impl⟩ := r
    cases impl <;> cases v <;> first | rfl | (simp [J.isStr] at hv)
  · intro methods ctx
    rfl

theorem c9_apply_non_string_passthrough_witness :
    ((⟨"r1", ["*"], 1, true, .regex (fun _ => "X")⟩ : Rule).apply
      ⟨[], [], []⟩ (.num 7) = .num 7) ∧
    ((⟨"r2", ["*"], 1, true,
        .materialMapLookup [.pathStem]⟩ : Rule).apply ⟨[("a", .str "b")], [], []⟩
      (.arr []) = .arr []) ∧
    ((⟨"r3", ["*"], 1, true,
        .regexPlaceholder (fun s => [.lit s]) "material_map"⟩ : Rule).apply
      ⟨[], [], []⟩ .null = .null) ∧
    lookupRuleApply [.pathStem] ⟨[("a", .str "b")], [], []⟩ (.str "") = .str "" :=
  ⟨c9_apply_non_string_passthrough.1 _ ⟨[], [], []⟩ (.num 7) (by rfl),
   c9_apply_non_string_passthrough.1 _ ⟨[("a", .str "b")], [], []⟩ (.arr []) (by rfl),
   c9_apply_non_string_passthrough.1 _ ⟨[], [], []⟩ .null (by rfl),
   c9_apply_non_string_passthrough.2 _ _⟩

/-- C10: in the placeholder-expand rule, every match's first capture group
is stripped of surrounding whitespace before the source-map lookup: a hit
for the trimmed key substitutes the mapped value's string form, and a miss
for the trimmed key keeps the original matched text — the raw (untrimmed)
capture is never the lookup key. -/
theorem c10_placeholder_trimmed_key (decomp : String → List Seg) (source : String)
    (ctx : Ctx) (data : List (String × J)) (v pre post g0 raw key : String) (val : J)
    (hsrc : ctxSource ctx source = some data)
    (hdec : decomp v = [.lit pre, .found g0 raw, .lit post])
    (htrim : strTrim raw = key) :
    (alookup data key = some val →
      placeholderRuleApply decomp source ctx (.str v) =
        .str (pre ++ pyToString val ++ post)) ∧
    (alookup data key = none →
      placeholderRuleApply decomp source ctx (.str v) = .str (pre ++ g0 ++ post)) := by
  constructor <;> intro hl <;>
    simp [placeholderRuleApply, hsrc, segsJoin, hdec, htrim, hl, String.join]

theorem c10_placeholder_trimmed_key_witness :
    (placeholderRuleApply (fun _ => [.lit "x[", .found "##  foo  ##" "  foo  ", .lit "]y"])
      "material_map" ⟨[("foo", .str "BAR")], [], []⟩ (.str "x[##  foo  ##]y") =
      .str ("x[" ++ pyToString (J.str "BAR") ++ "]y")) ∧
    (placeholderRuleApply (fun _ => [.lit "x[", .found "##  foo  ##" "  foo  ", .lit "]y"])
      "material_map" ⟨[("  foo  ", .str "RAW")], [], []⟩ (.str "x[##  foo  ##]y") =
      .str ("x[" ++ "##  foo  ##" ++ "]y")) :=
  ⟨(c10_placeholder_trimmed_key _ _ _ _ _ _ _ _ _ _ (J.str "BAR")
      (by rfl) (by rfl) (by rfl)).1 (by rfl),
   (c10_placeholder_trimmed_key _ _ _ _ _ _ _ _ _ _ J.null
      (by rfl) (by rfl) (by rfl)).2 (by rfl)⟩

/-- C4: text rules apply sequentially and cumulatively: with rule R1
replacing A with B and a later-priority rule R2 replacing B with C, both
targeting key k, processing the object with k mapped to "A" yields "C" —
R2 receives R1's output. -/
theorem c4_text_rules_cumulative (k : String) (fuel : Nat)
    (mm csv : List (String × J)) (p1 p2 : Int) (hp : p1 < p2) :
    processItem
      { pathRules := [],
        textRules := normalizeRules
          [⟨"R2", [k], p2, true, .regex (fun s => strReplace s "B" "C")⟩,
           ⟨"R1", [k], p1, true, .regex (fun s => strReplace s "A" "B")⟩],
        systemPathsToIgnore := [],
        jsonContentKeys := ["content"] }
      (fuel + 1) ⟨mm, csv, []⟩ (.obj [(k, .str "A")]) =
      .obj [(k, .str "C")] := by
  have hle : ¬ ((p2 : Int) ≤ p1) := not_le.mpr hp
  have hnorm : normalizeRules
      [⟨"R2", [k], p2, true, .regex (fun s => strReplace s "B" "C")⟩,
       ⟨"R1", [k], p1, true, .regex (fun s => strReplace s "A" "B")⟩] =
      [⟨"R1", [k], p1, true, .regex (fun s => strReplace s "A" "B")⟩,
       ⟨"R2", [k], p2, true, .regex (fun s => strReplace s "B" "C")⟩] := by
    simp [normalizeRules, sortRules, insertRule, hle]
  have ha1 : (Rule.appliesTo ⟨"R1", [k], p1, true,
      .regex (fun s => strReplace s "A" "B")⟩ k) = true :=
    appliesTo_of_mem (by simp)
  have ha2 : (Rule.appliesTo ⟨"R2", [k], p2, true,
      .regex (fun s => strReplace s "B" "C")⟩ k) = true :=
    appliesTo_of_mem (by simp)
  have hb : bracketStart "A" = false := rfl
  have hr1 : strReplace "A" "A" "B" = "B" := rfl
  have hr2 : strReplace "B" "B" "C" = "C" := rfl
  simp [processItem, hnorm, procField, processPathValue, isSystemPath,
    pathRuleLoop, hb, Bool.and_false, applyTextRules, List.foldl, ha1, ha2,
    Rule.applyS, Rule.apply, regexRuleApply, hr1, hr2]

theorem c4_text_rules_cumulative_witness :
    (0 : Int) < 1 ∧
    processItem
      { pathRules := [],
        textRules := normalizeRules
          [⟨"R2", ["k"], 1, true, .regex (fun s => strReplace s "B" "C")⟩,
           ⟨"R1", ["k"], 0, true, .regex (fun s => strReplace s "A" "B")⟩],
        systemPathsToIgnore := [],
        jsonContentKeys := ["content"] }
      1 ⟨[], [], []⟩ (.obj [("k", .str "A")]) = .obj [("k", .str "C")] :=
  ⟨by decide, c4_text_rules_cumulative "k" 0 [] [] 0 1 (by decide)⟩

/-- C6: for a field under the configured content key "content" whose value
is the string "\x7b\"x\":\"A\"\x7d", processing with a wildcard text rule
replacing A with Z yields exactly the string "\x7b\"x\":\"Z\"\x7d": the
value is parsed as nested JSON, recursively processed, and re-serialized
compactly before the text rules run on the result. -/
theorem c6_nested_json_round_trip (fuel : Nat) (mm csv : List (String × J)) :
    processItem
      { pathRules := [],
        textRules := [⟨"AZ", ["*"], 1, true,
          .regex (fun s => strReplace s "A" "Z")⟩],
        systemPathsToIgnore := [],
        jsonContentKeys := ["content"] }
      (fuel + 1) ⟨mm, csv, []⟩
      (.obj [("content", .str "\x7b\"x\":\"A\"\x7d")]) =
      .obj [("content", .str "\x7b\"x\":\"Z\"\x7d")] := by
  cases fuel with
  | zero => rfl
  | succ f => rfl

theorem mem_of_mem_dropWhile {p : Char → Bool} {c : Char} :
    ∀ {l : List Char}, c ∈ l.dropWhile p → c ∈ l := by
  intro l
  induction l with
  | nil => intro h; simp at h
  | cons a t ih =>
    intro h
    by_cases hp : p a
    · rw [List.dropWhile_cons_of_pos hp] at h
      exact List.mem_cons_of_mem a (ih h)
    · rw [List.dropWhile_cons_of_neg hp] at h
      exact h

theorem takeWhile_append_all (p : Char → Bool) (l1 l2 : List Char)
    (h : ∀ c ∈ l1, p c = true) : (l1 ++ l2).takeWhile p = l1 ++ l2.takeWhile p := by
  induction l1 with
  | nil => simp
  | cons a t ih =>
    rw [List.cons_append, List.takeWhile_cons, h a (List.mem_cons_self a t),
      ih (fun c hc => h c (List.mem_cons_of_mem a hc))]
    simp

theorem dropWhile_append_all (p : Char → Bool) (l1 l2 : List Char)
    (h : ∀ c ∈ l1, p c = true) : (l1 ++ l2).dropWhile p = l2.dropWhile p := by
  induction l1 with
  | nil => simp
  | cons a t ih =>
    rw [List.cons_append, List.dropWhile_cons_of_pos (h a (List.mem_cons_self a t))]
    exact ih (fun c hc => h c (List.mem_cons_of_mem a hc))

/-- C2 counterexample: with the default `extra_info` pattern, an object
whose `extra_info` is the non-empty string "img_01.png" — a leading run of
class characters followed by a literal dot — derives no candidate key at
all, and the material-map lookup leaves the value untouched even though the
map holds the key: the doubled backslash in the raw default pattern makes
the regex demand a literal backslash after the class run, so the documented
"leading run before a literal dot" reading never matches ordinary
filenames. -/
theorem c2_default_extra_info_counterexample :
    defaultExtraInfoMatch "img_01.png" = none ∧
    deriveKey (.extraInfo none)
      ⟨[("img_01.png", .str "/mapped/a.png")], [],
       [("extra_info", .str "img_01.png")]⟩ "orig" = none ∧
    lookupRuleApply [.extraInfo none]
      ⟨[("img_01.png", .str "/mapped/a.png")], [],
       [("extra_info", .str "img_01.png")]⟩ (.str "orig") = .str "orig" :=
  ⟨rfl, rfl, rfl⟩

/-- C2 amended: what the default `extra_info` pattern actually does.  It
matches exactly when the maximal leading run of `[a-zA-Z0-9_.-]` characters
is non-empty and is followed by a literal backslash, capturing that run;
a string with no backslash never matches; and on a match the captured run
is the candidate key used for the material-map lookup. -/
theorem c2_default_extra_info_amended (run rest : List Char) (v mv : String)
    (mm : List (String × J))
    (hne : run ≠ []) (hcls : ∀ c ∈ run, isClassChar c = true)
    (hmm : alookup mm run.asString = some (.str mv)) (hv : v ≠ "") :
    defaultExtraInfoMatch (run ++ '\\' :: rest).asString = some run.asString ∧
    (∀ s : String, (∀ c ∈ s.data, c ≠ '\\') → defaultExtraInfoMatch s = none) ∧
    lookupRuleApply [.extraInfo none]
      ⟨mm, [], [("extra_info", .str (run ++ '\\' :: rest).asString)]⟩
      (.str v) = .str mv := by
  have hdata : ((run ++ '\\' :: rest).asString).data = run ++ '\\' :: rest := rfl
  have hcb : isClassChar '\\' = false := by decide
  have htw : (run ++ '\\' :: rest).takeWhile isClassChar = run := by
    rw [takeWhile_append_all _ _ _ hcls, List.takeWhile_cons, hcb]
    simp
  have hdw : (run ++ '\\' :: rest).dropWhile isClassChar = '\\' :: rest := by
    rw [dropWhile_append_all _ _ _ hcls, List.dropWhile_cons_of_neg (by simp [hcb])]
  have h1 : defaultExtraInfoMatch (run ++ '\\' :: rest).asString = some run.asString := by
    unfold defaultExtraInfoMatch
    rw [hdata, htw, hdw]
    rw [if_neg (by simpa [List.isEmpty_iff] using hne)]
    rfl
  refine ⟨h1, ?_, ?_⟩
  · intro s hs
    show (if (s.data.takeWhile isClassChar).isEmpty = true then none
          else match s.data.dropWhile isClassChar with
            | '\\' :: _ => some (s.data.takeWhile isClassChar).asString
            | _ => none) = none
    split
    · rfl
    · split
      · rename_i heq
        have hmemd : '\\' ∈ s.data.dropWhile isClassChar := by
          rw [heq]; exact List.mem_cons_self _ _
        exact absurd rfl (hs '\\' (mem_of_mem_dropWhile hmemd))
      · rfl
  · have hei : (run ++ '\\' :: rest).asString ≠ "" := by
      intro h
      have := congrArg String.data h
      simp [hdata] at this
    have hmmne : mm.isEmpty = false := by
      cases mm with
      | nil => simp [alookup] at hmm
      | cons a t => rfl
    simp [lookupRuleApply, hv, hmmne, lookupLoop, deriveKey, alookup, hei, h1, hmm]

theorem c2_default_extra_info_amended_witness :
    defaultExtraInfoMatch ("img_01".data ++ '\\' :: ".png".data).asString =
      some ("img_01".data).asString ∧
    (∀ s : String, (∀ c ∈ s.data, c ≠ '\\') → defaultExtraInfoMatch s = none) ∧
    lookupRuleApply [.extraInfo none]
      ⟨[("img_01", .str "/m/x.png")], [],
       [("extra_info", .str ("img_01".data ++ '\\' :: ".png".data).asString)]⟩
      (.str "orig") = .str "/m/x.png" :=
  c2_default_extra_info_amended "img_01".data ".png".data "orig" "/m/x.png"
    [("img_01", .str "/m/x.png")] (by decide) (by decide) (by rfl) (by decide)

theorem mem_insertRule {y x : Rule} :
    ∀ {l : List Rule}, y ∈ insertRule x l → y = x ∨ y ∈ l := by
  intro l
  induction l with
  | nil => intro h; simp [insertRule] at h; exact Or.inl h
  | cons a t ih =>
    intro h
    rw [insertRule] at h
    by_cases hle : x.priority ≤ a.priority
    · rw [if_pos hle] at h
      exact List.mem_cons.mp h
    · rw [if_neg hle] at h
      rcases List.mem_cons.mp h with h | h
      · subst h; exact Or.inr (List.mem_cons_self _ _)
      · rcases ih h with h2 | h2
        · exact Or.inl h2
        · exact Or.inr (List.mem_cons_of_mem a h2)

theorem insertRule_pairwise (x : Rule) :
    ∀ l : List Rule, l.Pairwise (fun a b => a.priority ≤ b.priority) →
    (insertRule x l).Pairwise (fun a b => a.priority ≤ b.priority) := by
  intro l
  induction l with
  | nil => intro; simp [insertRule]
  | cons a t ih =>
    intro h
    rw [List.pairwise_cons] at h
    rw [insertRule]
    by_cases hle : x.priority ≤ a.priority
    · rw [if_pos hle, List.pairwise_cons]
      refine ⟨?_, List.pairwise_cons.mpr h⟩
      intro b hb
      rcases List.mem_cons.mp hb with rfl | hb
      · exact hle
      · exact le_trans hle (h.1 b hb)
    · rw [if_neg hle, List.pairwise_cons]
      refine ⟨?_, ih h.2⟩
      intro b hb
      rcases mem_insertRule hb with rfl | hb
      · exact le_of_not_le hle
      · exact h.1 b hb

theorem sortRules_pairwise :
    ∀ l : List Rule, (sortRules l).Pairwise (fun a b => a.priority ≤ b.priority) := by
  intro l
  induction l with
  | nil => simp [sortRules]
  | cons a t ih => exact insertRule_pairwise a (sortRules t) ih

theorem mem_sortRules {y : Rule} : ∀ {l : List Rule}, y ∈ sortRules l → y ∈ l := by
  intro l
  induction l with
  | nil => intro h; simp [sortRules] at h
  | cons a t ih =>
    intro h
    rw [sortRules] at h
    rcases mem_insertRule h with rfl | h
    · exact List.mem_cons_self _ _
    · exact List.mem_cons_of_mem a (ih h)

/-- C3: path rules are first-change-wins in ascending priority order.  The
normalized rule list the engine holds is sorted ascending by priority and
contains only enabled rules; and when every rule before `r` in the list
either does not apply to key `k` or applies without changing the value,
while `r` applies and changes it, `_process_path_value` returns exactly
`r`'s output — whatever rules follow `r`, they are never reached. -/
theorem c3_path_rules_first_change_wins (cfg : PMEngine) (rs1 rs2 : List Rule)
    (r : Rule) (ctx : Ctx) (k v : String)
    (hcfg : cfg.pathRules = rs1 ++ r :: rs2)
    (hsys : isSystemPath cfg v = false)
    (h1 : ∀ x ∈ rs1, x.appliesTo k = false ∨ x.applyS ctx v = v)
    (hr : r.appliesTo k = true) (hchg : r.applyS ctx v ≠ v) :
    processPathValue cfg ctx k v = r.applyS ctx v ∧
    ∀ rs : List Rule,
      (normalizeRules rs).Pairwise (fun a b => a.priority ≤ b.priority) ∧
      ∀ x ∈ normalizeRules rs, x.enabled = true := by
  constructor
  · unfold processPathValue
    rw [hsys, hcfg]
    simp only [Bool.false_eq_true, if_false]
    clear hcfg
    induction rs1 with
    | nil =>
      rw [List.nil_append, pathRuleLoop]
      simp [hr, hchg]
    | cons x t ih =>
      rw [List.cons_append, pathRuleLoop]
      rcases h1 x (List.mem_cons_self _ _) with hx | hx
      · rw [hx]
        simp only [Bool.false_eq_true, if_false]
        exact ih (fun y hy => h1 y (List.mem_cons_of_mem x hy))
      · by_cases hak : x.appliesTo k = true
        · rw [if_pos hak]
          simp only [hx, ne_eq, not_true_eq_false, if_false]
          exact ih (fun y hy => h1 y (List.mem_cons_of_mem x hy))
        · rw [if_neg hak]
          exact ih (fun y hy => h1 y (List.mem_cons_of_mem x hy))
  · intro rs
    refine ⟨sortRules_pairwise _, ?_⟩
    intro x hx
    have := mem_sortRules hx
    exact (List.mem_filter.mp this).2

theorem c3_path_rules_first_change_wins_witness :
    processPathValue
      ⟨[⟨"r0", ["*"], 1, true, .regex (fun s => s)⟩,
        ⟨"r1", ["*"], 2, true, .regex (fun _ => "CHANGED")⟩,
        ⟨"r2", ["*"], 3, true, .regex (fun _ => "OTHER")⟩], [], [], ["content"]⟩
      ⟨[], [], []⟩ "k" "v" =
      (Rule.applyS ⟨"r1", ["*"], 2, true, .regex (fun _ => "CHANGED")⟩ ⟨[], [], []⟩ "v") ∧
    ∀ rs : List Rule,
      (normalizeRules rs).Pairwise (fun a b => a.priority ≤ b.priority) ∧
      ∀ x ∈ normalizeRules rs, x.enabled = true :=
  c3_path_rules_first_change_wins _ [⟨"r0", ["*"], 1, true, .regex (fun s => s)⟩]
    [⟨"r2", ["*"], 3, true, .regex (fun _ => "OTHER")⟩]
    ⟨"r1", ["*"], 2, true, .regex (fun _ => "CHANGED")⟩ ⟨[], [], []⟩ "k" "v"
    rfl rfl
    (by intro x hx
        rw [List.mem_singleton] at hx
        subst hx
        exact Or.inr rfl)
    rfl (by decide)

/-- C7: with the empty rule configuration, processing any document yields a
tree related to the original by `JRel`: structurally identical except that
a string field under a content key whose value parses as JSON may be
re-serialized compactly, and the re-serialized field re-parses to a
structure related, in the same sense, to what the original field parsed
to. -/
theorem c7_empty_rules_passthrough (fuel : Nat) (D : J)
    (mm csv : List (String × J)) :
    JRel emptyEngine.jsonContentKeys D (processJson emptyEngine fuel D mm csv) := by
  cases D with
  | obj fields => exact processItem_jrel fuel _ _
  | arr es => exact processItem_jrel fuel _ _
  | str s => exact JRel.refl _ _
  | num n => exact JRel.refl _ _
  | bool b => exact JRel.refl _ _
  | null => exact JRel.refl _ _

theorem findTemplate_some_ok (fs : FS) (fn pp mt : String) :
    ∃ r, findTemplateMaterialByName fs fn (some pp) mt = .ok r := by
  unfold findTemplateMaterialByName
  split
  · exact ⟨none, rfl⟩
  · show ∃ r, (if fs.isDir pp = true then
        Except.ok (searchTemplateDirs fs pp fn
          (((templateTypeDirs.find? (fun kv => kv.1 = mt)).map (fun x => x.2)).getD [mt]))
      else Except.ok none) = .ok r
    by_cases hd : fs.isDir pp = true
    · rw [if_pos hd]
      exact ⟨_, rfl⟩
    · rw [if_neg hd]
      exact ⟨none, rfl⟩

theorem findTemplate_some_ne_error (fs : FS) (fn pp mt : String) (e : PyErr) :
    findTemplateMaterialByName fs fn (some pp) mt ≠ .error e := by
  intro h
  obtain ⟨r, hr⟩ := findTemplate_some_ok fs fn pp mt
  rw [hr] at h
  cases h

theorem templateFallback_ok (env : REnv) (pp : String)
    (hpp : env.templateProjPath = some pp) (mtd : Option String) (op : String) :
    ∃ r, templateFallback env mtd op = .ok r := by
  unfold templateFallback
  cases mtd with
  | none => exact ⟨op, rfl⟩
  | some mt =>
    show ∃ r, (if op ≠ "" then
        match findTemplateMaterialByName env.fs (pathName op) env.templateProjPath mt with
        | Except.error e => Except.error e
        | Except.ok (some tp) => Except.ok tp
        | Except.ok none => Except.ok op
      else Except.ok op) = Except.ok r
    by_cases hop : op ≠ ""
    · rw [if_pos hop, hpp]
      obtain ⟨r, hr⟩ := findTemplate_some_ok env.fs (pathName op) pp mt
      rw [hr]
      cases r with
      | none => exact ⟨op, rfl⟩
      | some tp => exact ⟨tp, rfl⟩
    · rw [if_neg hop]
      exact ⟨op, rfl⟩

theorem templateFallback_ne_error (env : REnv) (pp : String)
    (hpp : env.templateProjPath = some pp) (mtd : Option String) (op : String)
    (e : PyErr) : templateFallback env mtd op ≠ .error e := by
  intro h
  obtain ⟨r, hr⟩ := templateFallback_ok env pp hpp mtd op
  rw [hr] at h
  cases h

theorem resolveStep_ok (env : REnv) (pp cb : String)
    (hpp : env.templateProjPath = some pp) (hcb : env.changeBasePath = some cb)
    (st : MState) (cf : Option String) (oe : Bool) (mtd cs : Option String)
    (op : String) : ∃ x, resolveStep env st cf oe mtd cs op = .ok x := by
  unfold resolveStep
  split
  · exact ⟨_, rfl⟩
  · split
    · cases cs with
      | some sd =>
        simp only [hcb]
        cases hfc : findChangeMaterial env.fs (cf.getD "") env.projectNameForChange sd cb with
        | some cp => exact ⟨_, rfl⟩
        | none =>
          cases htf : templateFallback env mtd op with
          | error e => exact absurd htf (templateFallback_ne_error env pp hpp mtd op e)
          | ok fp => exact ⟨_, rfl⟩
      | none =>
        cases htf : templateFallback env mtd op with
        | error e => exact absurd htf (templateFallback_ne_error env pp hpp mtd op e)
        | ok fp => exact ⟨_, rfl⟩
    · cases mtd with
      | some mt =>
        by_cases hop : op ≠ ""
        · simp only [if_pos hop, hpp]
          cases hft : findTemplateMaterialByName env.fs (pathName op) (some pp) mt with
          | error e => exact absurd hft (findTemplate_some_ne_error _ _ _ _ _)
          | ok r =>
            cases r with
            | some tp => exact ⟨_, rfl⟩
            | none => exact ⟨_, rfl⟩
        · simp only [if_neg hop]
          exact ⟨_, rfl⟩
      | none => exact ⟨_, rfl⟩

theorem resolveStep_ne_error (env : REnv) (pp cb : String)
    (hpp : env.templateProjPath = some pp) (hcb : env.changeBasePath = some cb)
    (st : MState) (cf : Option String) (oe : Bool) (mtd cs : Option String)
    (op : String) (e : PyErr) : resolveStep env st cf oe mtd cs op ≠ .error e := by
  intro h
  obtain ⟨x, hx⟩ := resolveStep_ok env pp cb hpp hcb st cf oe mtd cs op
  rw [hx] at h
  cases h

theorem processMaterial_ok (env : REnv) (pp cb : String)
    (hpp : env.templateProjPath = some pp) (hcb : env.changeBasePath = some cb)
    (st : MState) (m : J) : ∃ st2, processMaterial env st m = .ok st2 := by
  cases m with
  | obj fields =>
    simp only [processMaterial]
    split
    · exact ⟨_, rfl⟩
    · split
      · exact ⟨_, rfl⟩
      · split
        · rename_i heq
          exact absurd heq (resolveStep_ne_error env pp cb hpp hcb st _ _ _ _ _ _)
        · exact ⟨_, rfl⟩
  | str s => exact ⟨st, rfl⟩
  | num n => exact ⟨st, rfl⟩
  | bool b => exact ⟨st, rfl⟩
  | null => exact ⟨st, rfl⟩
  | arr es => exact ⟨st, rfl⟩

theorem foldMaterials_ok (env : REnv) (pp cb : String)
    (hpp : env.templateProjPath = some pp) (hcb : env.changeBasePath = some cb) :
    ∀ (ms : List J) (st : MState), ∃ m, foldMaterials env ms st = .ok m := by
  intro ms
  induction ms with
  | nil => intro st; exact ⟨st, rfl⟩
  | cons m tl ih =>
    intro st
    obtain ⟨st2, h2⟩ := processMaterial_ok env pp cb hpp hcb st m
    rw [foldMaterials, h2]
    exact ih st2

/-- C1 counterexample: building the material map aborts with an exception
because one material could not be located.  With the template material
base missing, a material that needs the template search makes
`find_template_material_by_name` call `.is_dir()` on `None`
(`AttributeError`); with the change base missing and a CSV override
present, the function-local `change_path` is read before any assignment
(`UnboundLocalError`).  Both exceptions propagate out of
`_build_material_map`, contradicting the non-fatal policy the claim
states for missing base directories. -/
theorem c1_resolver_counterexample :
    buildMaterialMap ⟨fun _ => false, fun _ => false⟩
      (.obj [("draft_materials", .arr [.obj [("type", .num 0),
        ("value", .arr [.obj [("file_Path", .str "/t/image/a.png"),
          ("extra_info", .str "img_01.png"), ("type", .str "image")]])]])])
      [] "" "" "UnknownTemplate" "proj" = .error .attrNoneIsDir ∧
    buildMaterialMap ⟨fun _ => false, fun _ => false⟩
      (.obj [("draft_materials", .arr [.obj [("type", .num 0),
        ("value", .arr [.obj [("file_Path", .str "/t/image/a.png"),
          ("extra_info", .str "img_01.png"), ("type", .str "image")]])]])])
      [("img_01", "new.png")] "/t" "" "UnknownTemplate" "proj" =
      .error .unboundChangePath :=
  ⟨rfl, rfl⟩

/-- C1 amended: the non-fatal policy holds only when both base directories
are configured.  With a non-empty template material base and a non-empty
change material base, `_build_material_map` never raises — every
per-material failure (change miss, template miss, underivable path) is
absorbed; a material with no placeholder and no original path is skipped
outright; and with the template project path present, the per-material
template search itself never raises, returning `None` on a miss. -/
theorem c1_resolver_nonfatal_amended (fs : FS) (metaData : J)
    (csvRow : List (String × String)) (tb cb tn pn : String)
    (htb : tb ≠ "") (hcb : cb ≠ "") :
    (∃ m, buildMaterialMap fs metaData csvRow tb cb tn pn = .ok m) ∧
    (∀ (env : REnv) (st : MState),
      processMaterial env st
        (.obj [("file_Path", .str ""), ("extra_info", .str "")]) = .ok st) ∧
    (∀ fn pp mt, ∃ r, findTemplateMaterialByName fs fn (some pp) mt = .ok r) := by
  refine ⟨?_, fun env st => rfl, fun fn pp mt => findTemplate_some_ok fs fn pp mt⟩
  unfold buildMaterialMap
  simp only [if_neg htb, if_neg hcb]
  by_cases hn : pathName (pathResolve tb) = tn
  · simp only [if_pos hn]
    obtain ⟨mres, hm⟩ := foldMaterials_ok
      ⟨fs, csvRow, some (pathResolve tb), some (pathResolve cb),
        (slookup csvRow "ProjectName").getD pn⟩
      (pathResolve tb) (pathResolve cb) rfl rfl
      (materialsOfMeta metaData) ⟨[], [], none⟩
    rw [hm]
    exact ⟨_, rfl⟩
  · simp only [if_neg hn]
    obtain ⟨mres, hm⟩ := foldMaterials_ok
      ⟨fs, csvRow, some (pathJoin (pathResolve tb) tn), some (pathResolve cb),
        (slookup csvRow "ProjectName").getD pn⟩
      (pathJoin (pathResolve tb) tn) (pathResolve cb) rfl rfl
      (materialsOfMeta metaData) ⟨[], [], none⟩
    rw [hm]
    exact ⟨_, rfl⟩

theorem c1_resolver_nonfatal_amended_witness :
    (∃ m, buildMaterialMap ⟨fun _ => false, fun _ => false⟩ .null []
      "/t" "/c" "UnknownTemplate" "proj" = .ok m) ∧
    (∀ (env : REnv) (st : MState),
      processMaterial env st
        (.obj [("file_Path", .str ""), ("extra_info", .str "")]) = .ok st) ∧
    (∀ fn pp mt, ∃ r, findTemplateMaterialByName ⟨fun _ => false, fun _ => false⟩
      fn (some pp) mt = .ok r) :=
  c1_resolver_nonfatal_amended ⟨fun _ => false, fun _ => false⟩ .null []
    "/t" "/c" "UnknownTemplate" "proj" (by decide) (by decide)

/-- C5: the resolver fallback chain for a declared material with a CSV
override filename, covering both routes into the template fallback.  When
the change-material probe misses — or when the change subdirectory is
undeterminable (`changeSubdirOf` yields nothing) so no probe is even
attempted — but the template tree holds a file with the material's
original filename, the resolved final value is the template-tree path,
registered under both the placeholder and the original path; when the
template search also misses, the final value is the original reference
path unchanged. -/
theorem c5_resolver_fallback_chain (env : REnv) (st : MState)
    (fields : List (String × J)) (origPath ei pb cf mt : String)
    (hfp : getStrField fields "file_Path" = origPath) (hop : origPath ≠ "")
    (hei : alookup fields "extra_info" = some (.str ei))
    (hsplit : splitHead '.' ei = pb) (hpb : pb ≠ "")
    (hproc : st.processed.contains pb = false)
    (hcsv : slookup env.csvRow pb = some cf) (hcf : cf ≠ "")
    (hmt : mappedTypeDirOf pb ((alookup fields "type").getD (.str "")) origPath = some mt)
    (hne : origPath ≠ pb) :
    (∀ sd cb tp, changeSubdirOf pb = some sd → env.changeBasePath = some cb →
      findChangeMaterial env.fs cf env.projectNameForChange sd cb = none →
      findTemplateMaterialByName env.fs (pathName origPath)
        env.templateProjPath mt = .ok (some tp) →
      processMaterial env st (.obj fields) =
        .ok ⟨sinsert (sinsert st.mmap pb tp) origPath tp,
             pb :: st.processed, some none⟩) ∧
    (∀ sd cb, changeSubdirOf pb = some sd → env.changeBasePath = some cb →
      findChangeMaterial env.fs cf env.projectNameForChange sd cb = none →
      findTemplateMaterialByName env.fs (pathName origPath)
        env.templateProjPath mt = .ok none →
      processMaterial env st (.obj fields) =
        .ok ⟨sinsert (sinsert st.mmap pb origPath) origPath origPath,
             pb :: st.processed, some none⟩) ∧
    (∀ tp, changeSubdirOf pb = none →
      findTemplateMaterialByName env.fs (pathName origPath)
        env.templateProjPath mt = .ok (some tp) →
      processMaterial env st (.obj fields) =
        .ok ⟨sinsert (sinsert st.mmap pb tp) origPath tp,
             pb :: st.processed, st.changeVar⟩) ∧
    (changeSubdirOf pb = none →
      findTemplateMaterialByName env.fs (pathName origPath)
        env.templateProjPath mt = .ok none →
      processMaterial env st (.obj fields) =
        .ok ⟨sinsert (sinsert st.mmap pb origPath) origPath origPath,
             pb :: st.processed, st.changeVar⟩) := by
  have hmem : pb ∉ st.processed := by
    intro h
    have h2 : st.processed.contains pb = true := List.elem_eq_true_of_mem h
    rw [h2] at hproc
    cases hproc
  refine ⟨?_, ?_, ?_, ?_⟩
  · intro sd cb tp hsd hcb hmiss hft
    simp [processMaterial, resolveStep, templateFallback, hfp, hei, hsplit, hpb,
      hop, hproc, hmem, hcsv, hcf, hsd, hcb, hmiss, hmt, hne, hft]
  · intro sd cb hsd hcb hmiss hft
    simp [processMaterial, resolveStep, templateFallback, hfp, hei, hsplit, hpb,
      hop, hproc, hmem, hcsv, hcf, hsd, hcb, hmiss, hmt, hne, hft]
  · intro tp hsd hft
    simp [processMaterial, resolveStep, templateFallback, hfp, hei, hsplit, hpb,
      hop, hproc, hmem, hcsv, hcf, hsd, hmt, hne, hft]
  · intro hsd hft
    simp [processMaterial, resolveStep, templateFallback, hfp, hei, hsplit, hpb,
      hop, hproc, hmem, hcsv, hcf, hsd, hmt, hne, hft]

theorem c5_resolver_fallback_chain_witness :
    (processMaterial
      ⟨⟨fun p => p = "/tpl/Name/image/a.png",
        fun p => p = "/tpl/Name" || p = "/tpl/Name/image"⟩,
       [("img_01", "new.png")], some "/tpl/Name", some "/chg", "proj"⟩
      ⟨[], [], none⟩
      (.obj [("file_Path", .str "/orig/image/a.png"),
             ("extra_info", .str "img_01.png"), ("type", .str "image")]) =
      .ok ⟨sinsert (sinsert [] "img_01" "/tpl/Name/image/a.png")
             "/orig/image/a.png" "/tpl/Name/image/a.png",
           ["img_01"], some none⟩) ∧
    (processMaterial
      ⟨⟨fun p => p = "/tpl/Name/photo/b.png",
        fun p => p = "/tpl/Name" || p = "/tpl/Name/photo"⟩,
       [("photo_01", "p.png")], some "/tpl/Name", none, "proj"⟩
      ⟨[], [], none⟩
      (.obj [("file_Path", .str "/orig/photo/b.png"),
             ("extra_info", .str "photo_01.png"), ("type", .str "photo")]) =
      .ok ⟨sinsert (sinsert [] "photo_01" "/tpl/Name/photo/b.png")
             "/orig/photo/b.png" "/tpl/Name/photo/b.png",
           ["photo_01"], none⟩) :=
  ⟨(c5_resolver_fallback_chain
      ⟨⟨fun p => p = "/tpl/Name/image/a.png",
        fun p => p = "/tpl/Name" || p = "/tpl/Name/image"⟩,
       [("img_01", "new.png")], some "/tpl/Name", some "/chg", "proj"⟩
      ⟨[], [], none⟩
      [("file_Path", .str "/orig/image/a.png"),
       ("extra_info", .str "img_01.png"), ("type", .str "image")]
      "/orig/image/a.png" "img_01.png" "img_01" "new.png" "image"
      rfl (by decide) rfl rfl (by decide) rfl rfl (by decide) rfl
      (by decide)).1 "img" "/chg" "/tpl/Name/image/a.png" rfl rfl rfl rfl,
   (c5_resolver_fallback_chain
      ⟨⟨fun p => p = "/tpl/Name/photo/b.png",
        fun p => p = "/tpl/Name" || p = "/tpl/Name/photo"⟩,
       [("photo_01", "p.png")], some "/tpl/Name", none, "proj"⟩
      ⟨[], [], none⟩
      [("file_Path", .str "/orig/photo/b.png"),
       ("extra_info", .str "photo_01.png"), ("type", .str "photo")]
      "/orig/photo/b.png" "photo_01.png" "photo_01" "p.png" "photo"
      rfl (by decide) rfl rfl (by decide) rfl rfl (by decide) rfl
      (by decide)).2.2.1 "/tpl/Name/photo/b.png" rfl rfl⟩
